import Mathlib

/-!
Verification development for the svg2pdf conversion core (`src/lib.rs`).

The embedding models the code in `src/lib.rs` faithfully: `Options`,
`convert_str`, `convert_tree`, `convert_tree_into`, `write_color_spaces`,
`pdf_size` and `initial_transform` are translated line by line.  The external
`usvg` collaborator types used at the interface boundary (`Size`,
`NonZeroRect`, `Transform`, `ViewBox`, `Align`, `AspectRatio`) are translated
from their usvg sources.  The repository modules `render` and `util`
(`Context`, `Deferrer`, `tree_to_stream`, `finish_content`, `dpi_ratio`) are
not present under `src/`; they are modelled from the specification, as noted
on each definition.

Numeric values (`f32` in the source) are modelled as exact rationals; the
development therefore speaks about the ideal arithmetic of the code, not
about floating-point rounding.  A Rust panic (a failing `unwrap`) is
modelled as `Option.none`.  The byte buffer produced by `pdf-writer` is
modelled as the ordered list of written indirect objects: `pdf-writer`
serializes objects deterministically and injectively in write order, so
byte-for-byte identity of outputs corresponds to equality of these lists.
-/

namespace Svg2Pdf

/-- usvg `Size`: a width/height pair.  usvg guarantees constructed sizes are
finite and positive; construction goes through `Size.from_wh`. -/
structure Size where
  width : ℚ
  height : ℚ
deriving DecidableEq

/-- usvg `Size::from_wh`: `Some` exactly when both dimensions are positive
(finiteness is automatic over ℚ). -/
def Size.from_wh (w h : ℚ) : Option Size :=
  if 0 < w ∧ 0 < h then some ⟨w, h⟩ else none

/-- usvg `NonZeroRect`: a rectangle with positive width and height. -/
structure NonZeroRect where
  x : ℚ
  y : ℚ
  w : ℚ
  h : ℚ
deriving DecidableEq

/-- usvg `NonZeroRect::from_xywh`: `Some` exactly when width and height are
positive. -/
def NonZeroRect.from_xywh (x y w h : ℚ) : Option NonZeroRect :=
  if 0 < w ∧ 0 < h then some ⟨x, y, w, h⟩ else none

/-- usvg `Align`: the ten alignment modes of `preserveAspectRatio`. -/
inductive Align where
  | none_
  | xMinYMin
  | xMidYMin
  | xMaxYMin
  | xMinYMid
  | xMidYMid
  | xMaxYMid
  | xMinYMax
  | xMidYMax
  | xMaxYMax
deriving DecidableEq

/-- usvg `AspectRatio`: the parsed `preserveAspectRatio` value. -/
structure AspectRatio where
  defer : Bool
  align : Align
  slice : Bool
deriving DecidableEq

/-- usvg/tiny-skia affine `Transform` with the field layout of
`Transform::from_row(sx, ky, kx, sy, tx, ty)`. -/
structure Transform where
  sx : ℚ
  ky : ℚ
  kx : ℚ
  sy : ℚ
  tx : ℚ
  ty : ℚ
deriving DecidableEq

/-- usvg `Transform::from_row`. -/
def Transform.from_row (sx ky kx sy tx ty : ℚ) : Transform :=
  ⟨sx, ky, kx, sy, tx, ty⟩

/-- The affine map denoted by a `Transform`: the action of the matrix on a
point, as in tiny-skia's `map_point`. -/
def Transform.apply (t : Transform) (p : ℚ × ℚ) : ℚ × ℚ :=
  (t.sx * p.1 + t.kx * p.2 + t.tx, t.ky * p.1 + t.sy * p.2 + t.ty)

/-- usvg `Transform::pre_concat`: matrix product `a * b`, the transform that
applies `b` first and then `a`. -/
def Transform.pre_concat (a b : Transform) : Transform :=
  ⟨a.sx * b.sx + a.kx * b.ky,
   a.ky * b.sx + a.sy * b.ky,
   a.sx * b.kx + a.kx * b.sy,
   a.ky * b.kx + a.sy * b.sy,
   a.sx * b.tx + a.kx * b.ty + a.tx,
   a.ky * b.tx + a.sy * b.ty + a.ty⟩

/-- usvg `aligned_pos`: the anchor point chosen by an alignment mode inside
the free space `(w, h)` at offset `(x, y)`. -/
def aligned_pos (align : Align) (x y w h : ℚ) : ℚ × ℚ :=
  match align with
  | .none_ => (x, y)
  | .xMinYMin => (x, y)
  | .xMidYMin => (x + w / 2, y)
  | .xMaxYMin => (x + w, y)
  | .xMinYMid => (x, y + h / 2)
  | .xMidYMid => (x + w / 2, y + h / 2)
  | .xMaxYMid => (x + w, y + h / 2)
  | .xMinYMax => (x, y + h)
  | .xMidYMax => (x + w / 2, y + h)
  | .xMaxYMax => (x + w, y + h)

/-- usvg `ViewBox`: a source rectangle plus an aspect-ratio policy. -/
structure ViewBox where
  rect : NonZeroRect
  aspect : AspectRatio
deriving DecidableEq

/-- usvg `ViewBox::to_transform`: the transform fitting the view box onto an
image of the given size, honouring align/slice. -/
def ViewBox.to_transform (vb : ViewBox) (img_size : Size) : Transform :=
  let vr := vb.rect
  let sx0 := img_size.width / vr.w
  let sy0 := img_size.height / vr.h
  let s := if vb.aspect.slice then (if sx0 < sy0 then sy0 else sx0)
           else (if sx0 > sy0 then sy0 else sx0)
  let sx := if vb.aspect.align = Align.none_ then sx0 else s
  let sy := if vb.aspect.align = Align.none_ then sy0 else s
  let x := -vr.x * sx
  let y := -vr.y * sy
  let w := img_size.width - vr.w * sx
  let h := img_size.height - vr.h * sy
  let p := aligned_pos vb.aspect.align x y w h
  Transform.from_row sx 0 0 sy p.1 p.2

/-- Modelled from the spec: the kinds of resource-using events a node of the
scene tree can produce during the depth-first walk of the missing `render`
module — using the sRGB ICC color space, using the gray ICC color space, or
creating an indirect child object (shading, pattern, image, sub-XObject). -/
inductive NodeUse where
  | srgb
  | sgray
  | object
deriving DecidableEq

/-- Modelled from the spec: the input boundary of the conversion.  A usvg
`Tree` exposes a document-level intrinsic size (`tree.size()`), and its nodes
are abstracted by the pre-order sequence of resource-using events the missing
`render::tree_to_stream` walk performs on them. -/
structure Tree where
  width : ℚ
  height : ℚ
  content : List NodeUse
deriving DecidableEq

/-- usvg `Tree::size`. -/
def Tree.size (t : Tree) : Size := ⟨t.width, t.height⟩

/-- The conversion options of `src/lib.rs` (`struct Options`). -/
structure Options where
  viewport : Option Size
  aspect : Option AspectRatio
  dpi : ℚ
  compress : Bool
  raster_scale : ℚ
deriving DecidableEq

/-- `impl Default for Options` in `src/lib.rs`. -/
def Options.default : Options :=
  { dpi := 72, viewport := none, aspect := none, compress := true, raster_scale := 1 }

/-- The kinds of resources a scope's resource dictionary categorizes. -/
inductive ResKind where
  | colorSpace
  | xObject
deriving DecidableEq

/-- Modelled from the spec: the resource deduplicator (`util::context::Deferrer`,
not under `src/`).  It holds the allocator counter (a single monotonically
increasing counter; `convert_tree_into`'s documentation in `src/lib.rs` fixes
it to issue consecutive IDs starting at the caller-supplied `start_ref`), the
lazily allocated cached identities of the two global ICC profiles with their
used/unused flags, and the stack of resource scopes. -/
structure Deferrer where
  next_ref : ℕ
  srgbCached : Option ℕ
  sgrayCached : Option ℕ
  usedSrgb : Bool
  usedSgray : Bool
  scopes : List (List (ResKind × ℕ))
deriving DecidableEq

/-- Modelled from the spec: `allocate()` returns the counter value and
increments it ("issues consecutive IDs"). -/
def Deferrer.alloc_ref (d : Deferrer) : ℕ × Deferrer :=
  (d.next_ref, { d with next_ref := d.next_ref + 1 })

/-- Modelled from the spec: the sRGB profile's identity is allocated lazily on
first request and cached; every request marks the profile as used.  The
used flag is what `write_color_spaces` in `src/lib.rs` consults, and the page
group written by `convert_tree` references this identity, so requesting it
must both return a stable identity and set the flag. -/
def Deferrer.srgb_ref (d : Deferrer) : ℕ × Deferrer :=
  match d.srgbCached with
  | some r => (r, { d with usedSrgb := true })
  | none =>
    let a := d.alloc_ref
    (a.1, { a.2 with srgbCached := some a.1, usedSrgb := true })

/-- Modelled from the spec: the gray profile's identity, lazily allocated and
cached, with its used flag set on every request. -/
def Deferrer.sgray_ref (d : Deferrer) : ℕ × Deferrer :=
  match d.sgrayCached with
  | some r => (r, { d with usedSgray := true })
  | none =>
    let a := d.alloc_ref
    (a.1, { a.2 with sgrayCached := some a.1, usedSgray := true })

/-- Modelled from the spec: `push_scope` opens a fresh, empty resource scope. -/
def Deferrer.push (d : Deferrer) : Deferrer :=
  { d with scopes := [] :: d.scopes }

/-- Modelled from the spec: `pop_scope` closes the innermost scope and hands
its recorded resources to the caller (to be written into a resources
dictionary). -/
def Deferrer.pop (d : Deferrer) : List (ResKind × ℕ) × Deferrer :=
  match d.scopes with
  | [] => ([], d)
  | s :: rest => (s, { d with scopes := rest })

/-- Modelled from the spec: record a resource reference in the innermost
scope. -/
def Deferrer.register (d : Deferrer) (e : ResKind × ℕ) : Deferrer :=
  match d.scopes with
  | [] => d
  | s :: rest => { d with scopes := (s ++ [e]) :: rest }

/-- Modelled from the spec: the per-conversion `Context` (util module, not
under `src/`): the borrowed tree, the options, and the deferrer. -/
structure Context where
  tree : Tree
  options : Options
  deferrer : Deferrer
deriving DecidableEq

/-- Modelled from the spec: `Context::new(tree, options, start_ref)`.  The
allocator counter starts at the caller-supplied identity when one is given
(`convert_tree_into`) and at 1, the first valid object id, otherwise
(`convert_tree`); profile caches empty, used flags clear, no open scope. -/
def Context.new (tree : Tree) (options : Options) (start_ref : Option ℕ) : Context :=
  { tree := tree
    options := options
    deferrer :=
      { next_ref := start_ref.getD 1
        srgbCached := none
        sgrayCached := none
        usedSrgb := false
        usedSgray := false
        scopes := [] } }

/-- `ctx.alloc_ref()` as used throughout `src/lib.rs`. -/
def Context.alloc_ref (c : Context) : ℕ × Context :=
  let a := c.deferrer.alloc_ref
  (a.1, { c with deferrer := a.2 })

/-- The identity of the producer string written by `convert_tree`. -/
inductive Producer where
  | svg2pdf
deriving DecidableEq

/-- The two global ICC profiles of `src/lib.rs`. -/
inductive IccKind where
  | srgb
  | gray
deriving DecidableEq

/-- A content stream's payload before compression: the initial transform
passed to the walk plus the emitted operator sequence (abstracted by the
tree's event list). -/
structure ContentData where
  transform : Transform
  ops : List NodeUse
deriving DecidableEq

/-- Modelled from the spec: a content stream's bytes — either raw or the
deflate compression of the raw bytes (`util::helper::deflate`; deflate is
injective, so the encoding is kept abstract). -/
inductive Data where
  | raw (c : ContentData)
  | deflated (c : ContentData)
deriving DecidableEq

/-- The stream filters used by `src/lib.rs`. -/
inductive PdfFilter where
  | flateDecode
deriving DecidableEq

/-- The transparency-group attributes written for the page by `convert_tree`:
isolated flag, knockout flag, and the ICC-based color space reference. -/
structure TransparencyGroup where
  isolated : Bool
  knockout : Bool
  icc_cs : ℕ
deriving DecidableEq

/-- A pdf-writer `Rect`. -/
structure PRect where
  x1 : ℚ
  y1 : ℚ
  x2 : ℚ
  y2 : ℚ
deriving DecidableEq

/-- The indirect objects `src/lib.rs` writes (walk-emitted child objects are
abstracted as `walk_object`). -/
inductive PdfObject where
  | catalog (pages : ℕ)
  | pages (count : ℕ) (kids : List ℕ)
  | page (media_box : PRect) (parent : ℕ) (group : TransparencyGroup)
      (contents : ℕ) (resources : List (ResKind × ℕ))
  | stream (data : Data) (filter : Option PdfFilter)
  | form_xobject (data : Data) (bbox : PRect) (matrix : Transform)
      (filter : Option PdfFilter) (resources : List (ResKind × ℕ))
  | icc_profile (kind : IccKind) (n : ℕ)
  | document_info (producer : Producer)
  | walk_object
deriving DecidableEq

/-- A pdf-writer `Chunk`/`Pdf`: the ordered list of written indirect objects,
each with its identity. -/
abbrev Chunk := List (ℕ × PdfObject)

/-- Modelled from the spec: one step of the depth-first walk of
`render::tree_to_stream` (not under `src/`).  A node using the sRGB or gray
color space requests the profile's identity (setting its used flag) and
records it in the innermost resource scope; a node creating a child indirect
object allocates a fresh identity, writes the object into the chunk, and
records it in the innermost scope. -/
def walkStep (acc : Chunk × Context) (u : NodeUse) : Chunk × Context :=
  match u with
  | .srgb =>
    let a := acc.2.deferrer.srgb_ref
    (acc.1, { acc.2 with deferrer := a.2.register (ResKind.colorSpace, a.1) })
  | .sgray =>
    let a := acc.2.deferrer.sgray_ref
    (acc.1, { acc.2 with deferrer := a.2.register (ResKind.colorSpace, a.1) })
  | .object =>
    let a := acc.2.alloc_ref
    (acc.1 ++ [(a.1, PdfObject.walk_object)],
     { a.2 with deferrer := a.2.deferrer.register (ResKind.xObject, a.1) })

/-- Modelled from the spec: the recursive walk over the tree's event
sequence. -/
def walk : List NodeUse → Chunk × Context → Chunk × Context
  | [], acc => acc
  | u :: rest, acc => walk rest (walkStep acc u)

/-- Modelled from the spec: `render::tree_to_stream` (not under `src/`) —
walks the tree depth first, emitting child objects into the chunk and
resource uses into the innermost scope, and produces the content-stream
operators for the given initial transform. -/
def tree_to_stream (tree : Tree) (chunk : Chunk) (ctx : Context)
    (transform : Transform) : Chunk × Context × ContentData :=
  let r := walk tree.content (chunk, ctx)
  (r.1, r.2, ⟨transform, tree.content⟩)

/-- Modelled from the spec: `Context::finish_content` (not under `src/`) —
returns the content bytes, deflate-compressed exactly when
`options.compress` is set. -/
def Context.finish_content (c : Context) (content : ContentData) : Data :=
  if c.options.compress then Data.deflated content else Data.raw content

/-- Modelled from the spec: `util::helper::dpi_ratio` (not under `src/`) —
the scale factor from nominal pixels to printer's points; at the default 72
dpi one pixel is one point, matching the comment in `pdf_size` that the
ratio is "dots per user unit". -/
def dpi_ratio (dpi : ℚ) : ℚ := dpi / 72

/-- `pdf_size` from `src/lib.rs`: the dimensions of the PDF page — the
caller-supplied viewport or the tree's intrinsic size, divided by the dpi
ratio.  The source unwraps `Size::from_wh`; a failing unwrap is `none`. -/
def pdf_size (tree : Tree) (options : Options) : Option Size :=
  let viewport_size := options.viewport.getD tree.size
  Size.from_wh (viewport_size.width / dpi_ratio options.dpi)
    (viewport_size.height / dpi_ratio options.dpi)

/-- `initial_transform` from `src/lib.rs`: the y-flipping device transform
pre-concatenated with the view-box fit of the tree's intrinsic rectangle
onto the page size.  The source unwraps `NonZeroRect::from_xywh`; a failing
unwrap is `none`. -/
def initial_transform (aspect : Option AspectRatio) (tree : Tree) (size : Size) :
    Option Transform :=
  match NonZeroRect.from_xywh 0 0 tree.size.width tree.size.height with
  | none => none
  | some rect =>
    let view_box : ViewBox :=
      { rect := rect
        aspect := aspect.getD { defer := false, align := Align.none_, slice := false } }
    let custom_viewport_transform := view_box.to_transform size
    let pdf_transform := Transform.from_row 1 0 0 (-1) 0 size.height
    some (pdf_transform.pre_concat custom_viewport_transform)

/-- `write_color_spaces` from `src/lib.rs`: append each ICC profile object
to the chunk exactly when its used flag is set. -/
def write_color_spaces (ctx : Context) (chunk : Chunk) : Context × Chunk :=
  let step1 : Context × Chunk :=
    if ctx.deferrer.usedSrgb then
      let a := ctx.deferrer.srgb_ref
      ({ ctx with deferrer := a.2 },
       chunk ++ [(a.1, PdfObject.icc_profile IccKind.srgb 3)])
    else (ctx, chunk)
  if step1.1.deferrer.usedSgray then
    let a := step1.1.deferrer.sgray_ref
    ({ step1.1 with deferrer := a.2 },
     step1.2 ++ [(a.1, PdfObject.icc_profile IccKind.gray 1)])
  else step1

/-- `convert_tree` from `src/lib.rs`, translated statement by statement; the
objects appear in the chunk in the order `pdf-writer` receives them. -/
def convert_tree (tree : Tree) (options : Options) : Option Chunk :=
  match pdf_size tree options with
  | none => none
  | some size =>
    match initial_transform options.aspect tree size with
    | none => none
    | some it =>
      let ctx := Context.new tree options none
      let a1 := ctx.alloc_ref
      let catalog_ref := a1.1
      let a2 := a1.2.alloc_ref
      let page_tree_ref := a2.1
      let a3 := a2.2.alloc_ref
      let page_ref := a3.1
      let a4 := a3.2.alloc_ref
      let content_ref := a4.1
      let ctx := a4.2
      let pdf : Chunk :=
        [(catalog_ref, PdfObject.catalog page_tree_ref),
         (page_tree_ref, PdfObject.pages 1 [page_ref])]
      let ctx := { ctx with deferrer := ctx.deferrer.push }
      let w := tree_to_stream tree pdf ctx it
      let pdf := w.1
      let ctx := w.2.1
      let content_stream := ctx.finish_content w.2.2
      let stream_filter : Option PdfFilter :=
        if ctx.options.compress then some PdfFilter.flateDecode else none
      let pdf := pdf ++ [(content_ref, PdfObject.stream content_stream stream_filter)]
      let pr := ctx.deferrer.pop
      let page_resources := pr.1
      let ctx := { ctx with deferrer := pr.2 }
      let sr := ctx.deferrer.srgb_ref
      let ctx := { ctx with deferrer := sr.2 }
      let pdf := pdf ++
        [(page_ref,
          PdfObject.page ⟨0, 0, size.width, size.height⟩ page_tree_ref
            ⟨true, false, sr.1⟩ content_ref page_resources)]
      let wc := write_color_spaces ctx pdf
      let ctx := wc.1
      let pdf := wc.2
      let a5 := ctx.alloc_ref
      let document_info_id := a5.1
      some (pdf ++ [(document_info_id, PdfObject.document_info Producer.svg2pdf)])

/-- `convert_tree_into` from `src/lib.rs`, translated statement by
statement; the result is the caller's chunk extended with the written
objects, together with the returned next available identity. -/
def convert_tree_into (tree : Tree) (options : Options) (chunk : Chunk)
    (start_ref : ℕ) : Option (Chunk × ℕ) :=
  match pdf_size tree options with
  | none => none
  | some size =>
    match initial_transform options.aspect tree size with
    | none => none
    | some it =>
      let ctx := Context.new tree options (some start_ref)
      let ax := ctx.alloc_ref
      let x_ref := ax.1
      let ctx := { ax.2 with deferrer := ax.2.deferrer.push }
      let w := tree_to_stream tree chunk ctx it
      let chunk := w.1
      let ctx := w.2.1
      let content_stream := ctx.finish_content w.2.2
      let x_filter : Option PdfFilter :=
        if ctx.options.compress then some PdfFilter.flateDecode else none
      let pr := ctx.deferrer.pop
      let resources := pr.1
      let ctx := { ctx with deferrer := pr.2 }
      let chunk := chunk ++
        [(x_ref,
          PdfObject.form_xobject content_stream ⟨0, 0, size.width, size.height⟩
            (Transform.from_row (1 / size.width) 0 0 (1 / size.height) 0 0)
            x_filter resources)]
      let wc := write_color_spaces ctx chunk
      let ctx := wc.1
      let chunk := wc.2
      let an := ctx.alloc_ref
      some (chunk, an.1)

/-! ### Closed forms for the walk

The depth-first walk threads the allocator counter and the two profile
caches through the context.  The following definitions give the evolution
of that core state, the emitted child objects, and the registered resource
entries in closed form; `walk_eq` below proves the walk equal to them. -/

/-- The allocator-relevant core of a `Deferrer`: counter and profile
caches. -/
structure DefCore where
  next_ref : ℕ
  srgbCached : Option ℕ
  sgrayCached : Option ℕ
deriving DecidableEq

/-- Project a `Deferrer` to its core. -/
def Deferrer.core (d : Deferrer) : DefCore :=
  ⟨d.next_ref, d.srgbCached, d.sgrayCached⟩

/-- Core-state evolution of one walk step. -/
def coreUse (u : NodeUse) (c : DefCore) : DefCore :=
  match u with
  | .srgb =>
    match c.srgbCached with
    | some _ => c
    | none => ⟨c.next_ref + 1, some c.next_ref, c.sgrayCached⟩
  | .sgray =>
    match c.sgrayCached with
    | some _ => c
    | none => ⟨c.next_ref + 1, c.srgbCached, some c.next_ref⟩
  | .object => ⟨c.next_ref + 1, c.srgbCached, c.sgrayCached⟩

/-- Core-state evolution of a whole walk. -/
def coreRun : List NodeUse → DefCore → DefCore
  | [], c => c
  | u :: rest, c => coreRun rest (coreUse u c)

/-- The child objects one walk step writes into the chunk. -/
def emittedStep (u : NodeUse) (c : DefCore) : Chunk :=
  match u with
  | .object => [(c.next_ref, PdfObject.walk_object)]
  | _ => []

/-- The child objects a whole walk writes into the chunk. -/
def emitted : List NodeUse → DefCore → Chunk
  | [], _ => []
  | u :: rest, c => emittedStep u c ++ emitted rest (coreUse u c)

/-- The resource entry one walk step records in the innermost scope. -/
def regsStep (u : NodeUse) (c : DefCore) : List (ResKind × ℕ) :=
  match u with
  | .srgb => [(ResKind.colorSpace, c.srgbCached.getD c.next_ref)]
  | .sgray => [(ResKind.colorSpace, c.sgrayCached.getD c.next_ref)]
  | .object => [(ResKind.xObject, c.next_ref)]

/-- The resource entries a whole walk records in the innermost scope. -/
def regs : List NodeUse → DefCore → List (ResKind × ℕ)
  | [], _ => []
  | u :: rest, c => regsStep u c ++ regs rest (coreUse u c)

/-- Whether the event list contains a given event. -/
def usesNode (u : NodeUse) : List NodeUse → Bool
  | [] => false
  | v :: rest => (v == u) || usesNode u rest

/-- The output of `convert_tree` in closed form (proved equal to
`convert_tree` in `convert_tree_eq` below): the catalog at identity 1, the
page tree at 2, the walk-emitted child objects, the content stream at 4, the
page at 3 with the walk's resource entries and the sRGB-referencing
transparency group, the ICC profiles demanded by the used flags, and the
document info object. -/
def convertTreeOut (t : Tree) (o : Options) (size : Size) (it : Transform) : Chunk :=
  let core0 : DefCore := ⟨5, none, none⟩
  let coreF := coreRun t.content core0
  let srgbR := coreF.srgbCached.getD coreF.next_ref
  let next2 := if coreF.srgbCached.isSome then coreF.next_ref else coreF.next_ref + 1
  let cs : Data := if o.compress then Data.deflated ⟨it, t.content⟩ else Data.raw ⟨it, t.content⟩
  let fil : Option PdfFilter := if o.compress then some PdfFilter.flateDecode else none
  [(1, PdfObject.catalog 2), (2, PdfObject.pages 1 [3])]
    ++ emitted t.content core0
    ++ [(4, PdfObject.stream cs fil),
        (3, PdfObject.page ⟨0, 0, size.width, size.height⟩ 2 ⟨true, false, srgbR⟩ 4
              (regs t.content core0)),
        (srgbR, PdfObject.icc_profile IccKind.srgb 3)]
    ++ (if usesNode NodeUse.sgray t.content then
          [(coreF.sgrayCached.getD 0, PdfObject.icc_profile IccKind.gray 1)]
        else [])
    ++ [(next2, PdfObject.document_info Producer.svg2pdf)]

/-- The output of `convert_tree_into` in closed form (proved equal to
`convert_tree_into` in `convert_tree_into_eq` below): the caller's chunk,
the walk-emitted child objects, the root Form XObject at the caller-supplied
`start_ref`, and the ICC profiles demanded by the used flags; paired with
the returned next free identity. -/
def convertTreeIntoOut (t : Tree) (o : Options) (chunk : Chunk) (start_ref : ℕ)
    (size : Size) (it : Transform) : Chunk × ℕ :=
  let core0 : DefCore := ⟨start_ref + 1, none, none⟩
  let coreF := coreRun t.content core0
  let cs : Data := if o.compress then Data.deflated ⟨it, t.content⟩ else Data.raw ⟨it, t.content⟩
  let fil : Option PdfFilter := if o.compress then some PdfFilter.flateDecode else none
  (chunk ++ emitted t.content core0
    ++ [(start_ref, PdfObject.form_xobject cs ⟨0, 0, size.width, size.height⟩
          (Transform.from_row (1 / size.width) 0 0 (1 / size.height) 0 0) fil
          (regs t.content core0))]
    ++ (if usesNode NodeUse.srgb t.content then
          [(coreF.srgbCached.getD 0, PdfObject.icc_profile IccKind.srgb 3)]
        else [])
    ++ (if usesNode NodeUse.sgray t.content then
          [(coreF.sgrayCached.getD 0, PdfObject.icc_profile IccKind.gray 1)]
        else []),
   coreF.next_ref)

/-- The typed error of the external parser (`usvg::Error`, kept abstract). -/
inductive UsvgError where
  | parse
deriving DecidableEq

/-- `convert_str` from `src/lib.rs`: build usvg options whose default size is
the caller's viewport when one is given, parse, and convert.  The external
parser `Tree::from_str` is passed as a function of the default-size override
and the source string.  The inner `Option` models the panic surface of
`convert_tree` (whose Rust type is total). -/
def convert_str (from_str : Option Size → String → Except UsvgError Tree)
    (src : String) (options : Options) : Except UsvgError (Option Chunk) :=
  match from_str options.viewport src with
  | .error e => .error e
  | .ok tree => .ok (convert_tree tree options)

/-! ### Observations on chunks, used by the claim statements -/

/-- The identities of the objects written into a chunk, in write order. -/
def chunkRefs (c : Chunk) : List ℕ := c.map Prod.fst

/-- Whether an object is a page object. -/
def PdfObject.isPage : PdfObject → Bool
  | .page .. => true
  | _ => false

/-- Whether an object is the ICC profile of the given kind. -/
def PdfObject.isIcc (k : IccKind) : PdfObject → Bool
  | .icc_profile k' _ => k' == k
  | _ => false

/-- How many page objects a chunk contains. -/
def pageCount (c : Chunk) : ℕ := c.countP (fun p => p.2.isPage)

/-- How many ICC profile objects of the given kind a chunk contains. -/
def iccCount (c : Chunk) (k : IccKind) : ℕ := c.countP (fun p => p.2.isIcc k)

/-- The first object written under the given identity, if any. -/
def findObj (c : Chunk) (r : ℕ) : Option PdfObject :=
  (c.find? (fun p => p.1 == r)).map Prod.snd

/-- The stream filter slot of an object, for objects that carry one. -/
def streamFilter : PdfObject → Option (Option PdfFilter)
  | .stream _ f => some f
  | .form_xobject _ _ _ f _ => some f
  | _ => none

/-- The identities returned by `k` successive calls of the reference
allocator. -/
def allocSeq (d : Deferrer) : ℕ → List ℕ
  | 0 => []
  | k + 1 => (d.alloc_ref).1 :: allocSeq (d.alloc_ref).2 k

/-- A sample source string for exercising `convert_str`. -/
def sampleSrc : String := "svg"

/-- A stub parser that always succeeds with a fixed 100×100 tree. -/
def okParse : Option Size → String → Except UsvgError Tree :=
  fun _ _ => Except.ok ⟨100, 100, []⟩

/-- A stub parser that always fails. -/
def errParse : Option Size → String → Except UsvgError Tree :=
  fun _ _ => Except.error UsvgError.parse

/-! ### Lemmas: closed form of the walk -/

@[simp] theorem beq_srgb_sgray : (NodeUse.srgb == NodeUse.sgray) = false := rfl

@[simp] theorem beq_sgray_srgb : (NodeUse.sgray == NodeUse.srgb) = false := rfl

@[simp] theorem beq_object_srgb : (NodeUse.object == NodeUse.srgb) = false := rfl

@[simp] theorem beq_object_sgray : (NodeUse.object == NodeUse.sgray) = false := rfl

@[simp] theorem beq_srgb_srgb : (NodeUse.srgb == NodeUse.srgb) = true := rfl

@[simp] theorem beq_sgray_sgray : (NodeUse.sgray == NodeUse.sgray) = true := rfl

/-- The walk in closed form: starting from a context whose innermost scope is
`sc`, it appends the emitted child objects to the chunk, advances the
allocator core, sets a profile's used flag exactly when some node uses it,
and appends the registered resource entries to the innermost scope. -/
theorem walk_eq (l : List NodeUse) (c : Chunk) (ctx : Context)
    (sc : List (ResKind × ℕ)) (rest' : List (List (ResKind × ℕ)))
    (h : ctx.deferrer.scopes = sc :: rest') :
    walk l (c, ctx) =
      (c ++ emitted l ctx.deferrer.core,
       { ctx with deferrer :=
          { next_ref := (coreRun l ctx.deferrer.core).next_ref
            srgbCached := (coreRun l ctx.deferrer.core).srgbCached
            sgrayCached := (coreRun l ctx.deferrer.core).sgrayCached
            usedSrgb := ctx.deferrer.usedSrgb || usesNode NodeUse.srgb l
            usedSgray := ctx.deferrer.usedSgray || usesNode NodeUse.sgray l
            scopes := (sc ++ regs l ctx.deferrer.core) :: rest' } }) := by
  induction l generalizing c ctx sc with
  | nil =>
    obtain ⟨tr, op, n, s1, s2, u1, u2, sco⟩ := ctx
    simp only at h
    subst h
    simp [walk, emitted, coreRun, regs, usesNode, Deferrer.core]
  | cons u rest ih =>
    obtain ⟨tr, op, n, s1, s2, u1, u2, sco⟩ := ctx
    simp only at h
    subst h
    cases u with
    | srgb =>
      cases s1 with
      | none =>
        rw [walk, ih _ _ _ rfl]
        simp [walkStep, Deferrer.srgb_ref, Deferrer.alloc_ref, Deferrer.register,
          Deferrer.core, emitted, emittedStep, coreRun, coreUse, regs, regsStep,
          usesNode, List.append_assoc]
      | some r =>
        rw [walk, ih _ _ _ rfl]
        simp [walkStep, Deferrer.srgb_ref, Deferrer.alloc_ref, Deferrer.register,
          Deferrer.core, emitted, emittedStep, coreRun, coreUse, regs, regsStep,
          usesNode, List.append_assoc]
    | sgray =>
      cases s2 with
      | none =>
        rw [walk, ih _ _ _ rfl]
        simp [walkStep, Deferrer.sgray_ref, Deferrer.alloc_ref, Deferrer.register,
          Deferrer.core, emitted, emittedStep, coreRun, coreUse, regs, regsStep,
          usesNode, List.append_assoc]
      | some r =>
        rw [walk, ih _ _ _ rfl]
        simp [walkStep, Deferrer.sgray_ref, Deferrer.alloc_ref, Deferrer.register,
          Deferrer.core, emitted, emittedStep, coreRun, coreUse, regs, regsStep,
          usesNode, List.append_assoc]
    | object =>
      rw [walk, ih _ _ _ rfl]
      simp [walkStep, Context.alloc_ref, Deferrer.alloc_ref, Deferrer.register,
        Deferrer.core, emitted, emittedStep, coreRun, coreUse, regs, regsStep,
        usesNode, List.append_assoc]

/-! ### Lemmas: evolution of the allocator core -/

/-- A profile cache, once set, is never changed by a walk step. -/
theorem coreUse_srgb_stable (u : NodeUse) (c : DefCore) (r : ℕ)
    (h : c.srgbCached = some r) : (coreUse u c).srgbCached = some r := by
  cases u with
  | srgb => simp [coreUse, h]
  | sgray => cases hc : c.sgrayCached <;> simp [coreUse, h, hc]
  | object => simp [coreUse, h]

/-- A profile cache, once set, is never changed by a walk step. -/
theorem coreUse_sgray_stable (u : NodeUse) (c : DefCore) (r : ℕ)
    (h : c.sgrayCached = some r) : (coreUse u c).sgrayCached = some r := by
  cases u with
  | srgb => cases hc : c.srgbCached <;> simp [coreUse, h, hc]
  | sgray => simp [coreUse, h]
  | object => simp [coreUse, h]

/-- A profile cache, once set, survives the whole walk. -/
theorem coreRun_srgb_stable (l : List NodeUse) (c : DefCore) (r : ℕ)
    (h : c.srgbCached = some r) : (coreRun l c).srgbCached = some r := by
  induction l generalizing c with
  | nil => exact h
  | cons u rest ih => exact ih _ (coreUse_srgb_stable u c r h)

/-- A profile cache, once set, survives the whole walk. -/
theorem coreRun_sgray_stable (l : List NodeUse) (c : DefCore) (r : ℕ)
    (h : c.sgrayCached = some r) : (coreRun l c).sgrayCached = some r := by
  induction l generalizing c with
  | nil => exact h
  | cons u rest ih => exact ih _ (coreUse_sgray_stable u c r h)

/-- After the walk, the sRGB cache is populated exactly when it was already
populated or some node used sRGB. -/
theorem coreRun_srgb_isSome (l : List NodeUse) (c : DefCore) :
    ((coreRun l c).srgbCached).isSome
      = (c.srgbCached.isSome || usesNode NodeUse.srgb l) := by
  induction l generalizing c with
  | nil => simp [coreRun, usesNode]
  | cons u rest ih =>
    cases u with
    | srgb => cases hc : c.srgbCached <;> simp [coreRun, coreUse, usesNode, hc, ih]
    | sgray => cases hc : c.sgrayCached <;> simp [coreRun, coreUse, usesNode, hc, ih]
    | object => simp [coreRun, coreUse, usesNode, ih]

/-- After the walk, the gray cache is populated exactly when it was already
populated or some node used gray. -/
theorem coreRun_sgray_isSome (l : List NodeUse) (c : DefCore) :
    ((coreRun l c).sgrayCached).isSome
      = (c.sgrayCached.isSome || usesNode NodeUse.sgray l) := by
  induction l generalizing c with
  | nil => simp [coreRun, usesNode]
  | cons u rest ih =>
    cases u with
    | srgb => cases hc : c.srgbCached <;> simp [coreRun, coreUse, usesNode, hc, ih]
    | sgray => cases hc : c.sgrayCached <;> simp [coreRun, coreUse, usesNode, hc, ih]
    | object => simp [coreRun, coreUse, usesNode, ih]

/-- A walk step never decreases the allocator counter. -/
theorem coreUse_next_le (u : NodeUse) (c : DefCore) :
    c.next_ref ≤ (coreUse u c).next_ref := by
  cases u with
  | srgb => cases hc : c.srgbCached <;> simp [coreUse, hc]
  | sgray => cases hc : c.sgrayCached <;> simp [coreUse, hc]
  | object => simp [coreUse]

/-- The walk never decreases the allocator counter. -/
theorem coreRun_next_le (l : List NodeUse) (c : DefCore) :
    c.next_ref ≤ (coreRun l c).next_ref := by
  induction l generalizing c with
  | nil => exact le_rfl
  | cons u rest ih => exact le_trans (coreUse_next_le u c) (ih (coreUse u c))

/-- Every walk-emitted child object carries an identity at least the counter
before, and strictly below the counter after, the walk. -/
theorem emitted_ref_bounds (l : List NodeUse) (c : DefCore) :
    ∀ p ∈ emitted l c, c.next_ref ≤ p.1 ∧ p.1 < (coreRun l c).next_ref := by
  induction l generalizing c with
  | nil => simp [emitted]
  | cons u rest ih =>
    intro p hp
    rw [emitted] at hp
    rcases List.mem_append.mp hp with hstep | hrest
    · cases u with
      | srgb => simp [emittedStep] at hstep
      | sgray => simp [emittedStep] at hstep
      | object =>
        simp [emittedStep] at hstep
        subst hstep
        refine ⟨le_rfl, ?_⟩
        have h1 : c.next_ref < (coreUse NodeUse.object c).next_ref := by
          simp [coreUse]
        exact lt_of_lt_of_le h1 (by rw [coreRun]; exact coreRun_next_le rest _)
    · have := ih (coreUse u c) p hrest
      exact ⟨le_trans (coreUse_next_le u c) this.1, by rw [coreRun]; exact this.2⟩

/-- The identities of the walk-emitted child objects are strictly
increasing (the allocator issues them in traversal order). -/
theorem emitted_refs_sorted (l : List NodeUse) (c : DefCore) :
    ((emitted l c).map Prod.fst).Pairwise (· < ·) := by
  induction l generalizing c with
  | nil => simp [emitted]
  | cons u rest ih =>
    cases u with
    | srgb => rw [emitted]; simpa [emittedStep] using ih (coreUse NodeUse.srgb c)
    | sgray => rw [emitted]; simpa [emittedStep] using ih (coreUse NodeUse.sgray c)
    | object =>
      rw [emitted]
      simp only [emittedStep, List.map_append, List.map_cons, List.map_nil,
        List.singleton_append, List.pairwise_cons]
      refine ⟨?_, ih (coreUse NodeUse.object c)⟩
      intro b hb
      obtain ⟨p, hp, hfst⟩ := List.mem_map.mp hb
      have h1 := (emitted_ref_bounds rest (coreUse NodeUse.object c) p hp).1
      have h2 : (coreUse NodeUse.object c).next_ref = c.next_ref + 1 := by simp [coreUse]
      omega

/-- Every walk-emitted object is a child walk object (never a page, stream,
profile, or info object). -/
theorem emitted_obj (l : List NodeUse) (c : DefCore) :
    ∀ p ∈ emitted l c, p.2 = PdfObject.walk_object := by
  induction l generalizing c with
  | nil => simp [emitted]
  | cons u rest ih =>
    intro p hp
    rw [emitted] at hp
    rcases List.mem_append.mp hp with hstep | hrest
    · cases u with
      | srgb => simp [emittedStep] at hstep
      | sgray => simp [emittedStep] at hstep
      | object =>
        simp [emittedStep] at hstep
        simp [hstep]
    · exact ih (coreUse u c) p hrest

/-- Validity of the allocator core: cached profile identities lie below the
counter and are distinct from each other. -/
def CoreOk (c : DefCore) : Prop :=
  (∀ r, c.srgbCached = some r → r < c.next_ref) ∧
  (∀ r, c.sgrayCached = some r → r < c.next_ref) ∧
  (∀ a b, c.srgbCached = some a → c.sgrayCached = some b → a ≠ b)

/-- A walk step preserves core validity. -/
theorem coreUse_ok (u : NodeUse) (c : DefCore) (h : CoreOk c) : CoreOk (coreUse u c) := by
  obtain ⟨h1, h2, h3⟩ := h
  cases u with
  | srgb =>
    cases hc : c.srgbCached with
    | some r => simpa [coreUse, hc] using ⟨h1, h2, h3⟩
    | none =>
      refine ⟨?_, ?_, ?_⟩
      · intro r hr
        simp [coreUse, hc] at hr ⊢
        omega
      · intro r hr
        simp [coreUse, hc] at hr ⊢
        exact lt_of_lt_of_le (h2 r hr) (Nat.le_succ _)
      · intro a b ha hb
        simp [coreUse, hc] at ha hb
        have := h2 b hb
        omega
  | sgray =>
    cases hc : c.sgrayCached with
    | some r => simpa [coreUse, hc] using ⟨h1, h2, h3⟩
    | none =>
      refine ⟨?_, ?_, ?_⟩
      · intro r hr
        simp [coreUse, hc] at hr ⊢
        exact lt_of_lt_of_le (h1 r hr) (Nat.le_succ _)
      · intro r hr
        simp [coreUse, hc] at hr ⊢
        omega
      · intro a b ha hb
        simp [coreUse, hc] at ha hb
        have := h1 a ha
        omega
  | object =>
    refine ⟨?_, ?_, ?_⟩
    · intro r hr
      simp [coreUse] at hr ⊢
      exact lt_of_lt_of_le (h1 r hr) (Nat.le_succ _)
    · intro r hr
      simp [coreUse] at hr ⊢
      exact lt_of_lt_of_le (h2 r hr) (Nat.le_succ _)
    · intro a b ha hb
      simp [coreUse] at ha hb
      exact h3 a b ha hb

/-- The walk preserves core validity. -/
theorem coreRun_ok (l : List NodeUse) (c : DefCore) (h : CoreOk c) :
    CoreOk (coreRun l c) := by
  induction l generalizing c with
  | nil => exact h
  | cons u rest ih => exact ih _ (coreUse_ok u c h)

/-- If the sRGB cache ends up holding `r`, then `r` was either cached before
the walk or freshly allocated during it. -/
theorem coreRun_srgb_cases (l : List NodeUse) (c : DefCore) (r : ℕ)
    (h : (coreRun l c).srgbCached = some r) :
    c.srgbCached = some r ∨ c.next_ref ≤ r := by
  induction l generalizing c with
  | nil => exact Or.inl h
  | cons u rest ih =>
    rw [coreRun] at h
    rcases ih (coreUse u c) h with hold | hnew
    · cases u with
      | srgb =>
        cases hc : c.srgbCached with
        | some r0 => simp [coreUse, hc] at hold; left; rw [hold]
        | none =>
          right
          simp [coreUse, hc] at hold
          omega
      | sgray =>
        cases hc : c.sgrayCached with
        | some r0 => simp [coreUse, hc] at hold; left; exact hold
        | none => simp [coreUse, hc] at hold; left; exact hold
      | object => simp [coreUse] at hold; left; exact hold
    · right; exact le_trans (coreUse_next_le u c) hnew

/-- If the gray cache ends up holding `r`, then `r` was either cached before
the walk or freshly allocated during it. -/
theorem coreRun_sgray_cases (l : List NodeUse) (c : DefCore) (r : ℕ)
    (h : (coreRun l c).sgrayCached = some r) :
    c.sgrayCached = some r ∨ c.next_ref ≤ r := by
  induction l generalizing c with
  | nil => exact Or.inl h
  | cons u rest ih =>
    rw [coreRun] at h
    rcases ih (coreUse u c) h with hold | hnew
    · cases u with
      | sgray =>
        cases hc : c.sgrayCached with
        | some r0 => simp [coreUse, hc] at hold; left; rw [hold]
        | none =>
          right
          simp [coreUse, hc] at hold
          omega
      | srgb =>
        cases hc : c.srgbCached with
        | some r0 => simp [coreUse, hc] at hold; left; exact hold
        | none => simp [coreUse, hc] at hold; left; exact hold
      | object => simp [coreUse] at hold; left; exact hold
    · right; exact le_trans (coreUse_next_le u c) hnew

/-- The identity cached for the sRGB profile never collides with a
walk-emitted child object's identity. -/
theorem srgb_notin_emitted (l : List NodeUse) (c : DefCore) (r : ℕ)
    (hok : CoreOk c) (h : (coreRun l c).srgbCached = some r) :
    r ∉ (emitted l c).map Prod.fst := by
  induction l generalizing c with
  | nil => simp [emitted]
  | cons u rest ih =>
    rw [emitted, List.map_append]
    intro hmem
    rcases List.mem_append.mp hmem with hstep | hrest
    · cases u with
      | srgb => simp [emittedStep] at hstep
      | sgray => simp [emittedStep] at hstep
      | object =>
        simp [emittedStep] at hstep
        rw [coreRun] at h
        rcases coreRun_srgb_cases rest (coreUse NodeUse.object c) r h with hold | hnew
        · simp [coreUse] at hold
          have := hok.1 r hold
          omega
        · simp [coreUse] at hnew
          omega
    · rw [coreRun] at h
      exact ih (coreUse u c) (coreUse_ok u c hok) h hrest

/-- The identity cached for the gray profile never collides with a
walk-emitted child object's identity. -/
theorem sgray_notin_emitted (l : List NodeUse) (c : DefCore) (r : ℕ)
    (hok : CoreOk c) (h : (coreRun l c).sgrayCached = some r) :
    r ∉ (emitted l c).map Prod.fst := by
  induction l generalizing c with
  | nil => simp [emitted]
  | cons u rest ih =>
    rw [emitted, List.map_append]
    intro hmem
    rcases List.mem_append.mp hmem with hstep | hrest
    · cases u with
      | srgb => simp [emittedStep] at hstep
      | sgray => simp [emittedStep] at hstep
      | object =>
        simp [emittedStep] at hstep
        rw [coreRun] at h
        rcases coreRun_sgray_cases rest (coreUse NodeUse.object c) r h with hold | hnew
        · simp [coreUse] at hold
          have := hok.2.1 r hold
          omega
        · simp [coreUse] at hnew
          omega
    · rw [coreRun] at h
      exact ih (coreUse u c) (coreUse_ok u c hok) h hrest

/-! ### Closed forms of the two conversion entry points -/

/-- `convert_tree` computes its closed form `convertTreeOut` whenever the
page size and the initial transform are defined. -/
theorem convert_tree_eq (t : Tree) (o : Options) (size : Size) (it : Transform)
    (hs : pdf_size t o = some size)
    (hit : initial_transform o.aspect t size = some it) :
    convert_tree t o = some (convertTreeOut t o size it) := by
  have hwalk := walk_eq t.content
    [(1, PdfObject.catalog 2), (2, PdfObject.pages 1 [3])]
    ⟨t, o, ⟨5, none, none, false, false, [[]]⟩⟩ [] [] rfl
  simp only [convert_tree, hs, hit]
  simp only [Context.new, Context.alloc_ref, Deferrer.alloc_ref, Deferrer.push,
    tree_to_stream, Option.getD]
  simp only [Nat.reduceAdd]
  simp only [hwalk]
  simp only [Deferrer.core, Context.finish_content, Deferrer.pop, Bool.false_or,
    List.nil_append]
  cases hsc : (coreRun t.content ⟨5, none, none⟩).srgbCached with
  | some r =>
    cases husg : usesNode NodeUse.sgray t.content with
    | true =>
      have hg : ((coreRun t.content ⟨5, none, none⟩).sgrayCached).isSome = true := by
        rw [coreRun_sgray_isSome]
        simp [husg]
      obtain ⟨g, hgc⟩ := Option.isSome_iff_exists.mp hg
      simp [Deferrer.srgb_ref, Deferrer.sgray_ref, write_color_spaces, hsc, hgc, husg,
        Context.alloc_ref, Deferrer.alloc_ref, convertTreeOut, Deferrer.core]
    | false =>
      simp [Deferrer.srgb_ref, Deferrer.sgray_ref, write_color_spaces, hsc, husg,
        Context.alloc_ref, Deferrer.alloc_ref, convertTreeOut, Deferrer.core]
  | none =>
    cases husg : usesNode NodeUse.sgray t.content with
    | true =>
      have hg : ((coreRun t.content ⟨5, none, none⟩).sgrayCached).isSome = true := by
        rw [coreRun_sgray_isSome]
        simp [husg]
      obtain ⟨g, hgc⟩ := Option.isSome_iff_exists.mp hg
      simp [Deferrer.srgb_ref, Deferrer.sgray_ref, write_color_spaces, hsc, hgc, husg,
        Context.alloc_ref, Deferrer.alloc_ref, convertTreeOut, Deferrer.core]
    | false =>
      simp [Deferrer.srgb_ref, Deferrer.sgray_ref, write_color_spaces, hsc, husg,
        Context.alloc_ref, Deferrer.alloc_ref, convertTreeOut, Deferrer.core]

/-- `convert_tree_into` computes its closed form `convertTreeIntoOut`
whenever the page size and the initial transform are defined. -/
theorem convert_tree_into_eq (t : Tree) (o : Options) (chunk : Chunk) (start_ref : ℕ)
    (size : Size) (it : Transform)
    (hs : pdf_size t o = some size)
    (hit : initial_transform o.aspect t size = some it) :
    convert_tree_into t o chunk start_ref
      = some (convertTreeIntoOut t o chunk start_ref size it) := by
  have hwalk := walk_eq t.content chunk
    ⟨t, o, ⟨start_ref + 1, none, none, false, false, [[]]⟩⟩ [] [] rfl
  simp only [convert_tree_into, hs, hit]
  simp only [Context.new, Context.alloc_ref, Deferrer.alloc_ref, Deferrer.push,
    tree_to_stream, Option.getD]
  simp only [hwalk]
  simp only [Deferrer.core, Context.finish_content, Deferrer.pop, Bool.false_or,
    List.nil_append]
  cases husr : usesNode NodeUse.srgb t.content with
  | true =>
    have hr : ((coreRun t.content ⟨start_ref + 1, none, none⟩).srgbCached).isSome = true := by
      rw [coreRun_srgb_isSome]
      simp [husr]
    obtain ⟨r, hrc⟩ := Option.isSome_iff_exists.mp hr
    cases husg : usesNode NodeUse.sgray t.content with
    | true =>
      have hg : ((coreRun t.content ⟨start_ref + 1, none, none⟩).sgrayCached).isSome = true := by
        rw [coreRun_sgray_isSome]
        simp [husg]
      obtain ⟨g, hgc⟩ := Option.isSome_iff_exists.mp hg
      simp [Deferrer.srgb_ref, Deferrer.sgray_ref, write_color_spaces, hrc, hgc, husr, husg,
        Context.alloc_ref, Deferrer.alloc_ref, convertTreeIntoOut, Deferrer.core]
    | false =>
      simp [Deferrer.srgb_ref, Deferrer.sgray_ref, write_color_spaces, hrc, husr, husg,
        Context.alloc_ref, Deferrer.alloc_ref, convertTreeIntoOut, Deferrer.core]
  | false =>
    cases husg : usesNode NodeUse.sgray t.content with
    | true =>
      have hg : ((coreRun t.content ⟨start_ref + 1, none, none⟩).sgrayCached).isSome = true := by
        rw [coreRun_sgray_isSome]
        simp [husg]
      obtain ⟨g, hgc⟩ := Option.isSome_iff_exists.mp hg
      simp [Deferrer.srgb_ref, Deferrer.sgray_ref, write_color_spaces, hgc, husr, husg,
        Context.alloc_ref, Deferrer.alloc_ref, convertTreeIntoOut, Deferrer.core]
    | false =>
      simp [Deferrer.srgb_ref, Deferrer.sgray_ref, write_color_spaces, husr, husg,
        Context.alloc_ref, Deferrer.alloc_ref, convertTreeIntoOut, Deferrer.core]

/-! ### Support lemmas for the claim theorems -/

/-- Unfolding of `pdf_size`: the page dimensions are the viewport (or
intrinsic) dimensions divided by the dpi ratio, and they are positive. -/
theorem pdf_size_spec (t : Tree) (o : Options) (size : Size)
    (hs : pdf_size t o = some size) :
    size.width = (o.viewport.getD t.size).width / dpi_ratio o.dpi ∧
    size.height = (o.viewport.getD t.size).height / dpi_ratio o.dpi ∧
    0 < size.width ∧ 0 < size.height := by
  simp only [pdf_size, Size.from_wh] at hs
  split_ifs at hs with h
  · cases hs
    exact ⟨rfl, rfl, h.1, h.2⟩

/-- A tree of positive intrinsic size always has an initial transform. -/
theorem initial_transform_eq (a : Option AspectRatio) (t : Tree) (size : Size)
    (hw : 0 < t.width) (hh : 0 < t.height) :
    initial_transform a t size
      = some ((Transform.from_row 1 0 0 (-1) 0 size.height).pre_concat
          ((ViewBox.mk ⟨0, 0, t.width, t.height⟩
              (a.getD ⟨false, Align.none_, false⟩)).to_transform size)) := by
  have h : NonZeroRect.from_xywh 0 0 t.size.width t.size.height
      = some ⟨0, 0, t.width, t.height⟩ := by
    simp [NonZeroRect.from_xywh, Tree.size, hw, hh]
  rw [initial_transform, h]

/-- `pre_concat` composes the denoted affine maps. -/
theorem pre_concat_apply (a b : Transform) (p : ℚ × ℚ) :
    (a.pre_concat b).apply p = a.apply (b.apply p) := by
  simp only [Transform.pre_concat, Transform.apply, Prod.mk.injEq]
  constructor <;> ring

/-- A positive dpi and positive dimensions make `pdf_size` defined. -/
theorem pdf_size_isSome (t : Tree) (o : Options)
    (hw : 0 < t.width) (hh : 0 < t.height) (hdpi : 0 < o.dpi)
    (hv : ∀ v, o.viewport = some v → 0 < v.width ∧ 0 < v.height) :
    ∃ size, pdf_size t o = some size := by
  have hr : 0 < dpi_ratio o.dpi := div_pos hdpi (by norm_num)
  cases hvp : o.viewport with
  | none =>
    have h1 : 0 < t.width / dpi_ratio o.dpi := div_pos hw hr
    have h2 : 0 < t.height / dpi_ratio o.dpi := div_pos hh hr
    exact ⟨⟨t.width / dpi_ratio o.dpi, t.height / dpi_ratio o.dpi⟩,
      by simp [pdf_size, hvp, Size.from_wh, Tree.size, h1, h2]⟩
  | some v =>
    obtain ⟨hv1, hv2⟩ := hv v hvp
    have h1 : 0 < v.width / dpi_ratio o.dpi := div_pos hv1 hr
    have h2 : 0 < v.height / dpi_ratio o.dpi := div_pos hv2 hr
    exact ⟨⟨v.width / dpi_ratio o.dpi, v.height / dpi_ratio o.dpi⟩,
      by simp [pdf_size, hvp, Size.from_wh, h1, h2]⟩

/-- Walk-emitted objects contribute no ICC profile objects. -/
theorem emitted_countP_icc (l : List NodeUse) (c : DefCore) (k : IccKind) :
    (emitted l c).countP (fun p => p.2.isIcc k) = 0 := by
  refine List.countP_eq_zero.mpr ?_
  intro p hp
  rw [emitted_obj l c p hp]
  simp [PdfObject.isIcc]

/-- Walk-emitted objects contribute no page objects. -/
theorem emitted_countP_page (l : List NodeUse) (c : DefCore) :
    (emitted l c).countP (fun p => p.2.isPage) = 0 := by
  refine List.countP_eq_zero.mpr ?_
  intro p hp
  rw [emitted_obj l c p hp]
  simp [PdfObject.isPage]

/-- A default-options conversion keeps the tree's own size as page size. -/
theorem pdf_size_default (w h : ℚ) (l : List NodeUse) (hw : 0 < w) (hh : 0 < h) :
    pdf_size ⟨w, h, l⟩ Options.default = some ⟨w, h⟩ := by
  norm_num [pdf_size, Size.from_wh, dpi_ratio, Tree.size, Options.default, hw, hh]

/-- Under default options the initial transform is the bare y-flip. -/
theorem initial_transform_default (w h : ℚ) (l : List NodeUse) (hw : 0 < w) (hh : 0 < h) :
    initial_transform Options.default.aspect ⟨w, h, l⟩ ⟨w, h⟩
      = some ⟨1, 0, 0, -1, 0, h⟩ := by
  have hw0 : w ≠ 0 := ne_of_gt hw
  have hh0 : h ≠ 0 := ne_of_gt hh
  rw [initial_transform_eq Options.default.aspect ⟨w, h, l⟩ ⟨w, h⟩ hw hh]
  simp [ViewBox.to_transform, aligned_pos, Transform.from_row, Transform.pre_concat,
    Option.getD, Options.default, div_self hw0, div_self hh0, Transform.mk.injEq]

/-- The allocator issues the consecutive identities starting at its
counter. -/
theorem allocSeq_eq (d : Deferrer) (k : ℕ) :
    allocSeq d k = List.range' d.next_ref k := by
  induction k generalizing d with
  | zero => simp [allocSeq]
  | succ k ih =>
    simp [allocSeq, Deferrer.alloc_ref, List.range'_succ, ih]


/-- Skeleton fact: the identity layout of a `convert_tree` output —
`[catalog, pagetree] ++ walk objects ++ [stream, page, sRGB] ++ gray ++
[info]` — has no duplicate identities under the stated bounds. -/
theorem refs_nodup_aux (E G : List ℕ) (R N : ℕ)
    (hE : E.Pairwise (· < ·))
    (hE5 : ∀ e ∈ E, 5 ≤ e)
    (hEN : ∀ e ∈ E, e < N)
    (hER : R ∉ E)
    (hGE : ∀ g ∈ G, g ∉ E)
    (hR5 : 5 ≤ R) (hRN : R < N)
    (hG5 : ∀ g ∈ G, 5 ≤ g) (hGN : ∀ g ∈ G, g < N)
    (hRG : ∀ g ∈ G, R ≠ g) (hGnd : G.Nodup) :
    ([1, 2] ++ (E ++ ([4, 3, R] ++ (G ++ [N])))).Nodup := by
  have hEnd : E.Nodup := hE.imp (fun h => Nat.ne_of_lt h)
  refine List.nodup_append.mpr ⟨by decide, ?_, ?_⟩
  · refine List.nodup_append.mpr ⟨hEnd, ?_, ?_⟩
    · refine List.nodup_append.mpr ⟨?_, ?_, ?_⟩
      · simp
        omega
      · refine List.nodup_append.mpr ⟨hGnd, by simp, ?_⟩
        intro a haG haN
        simp only [List.mem_singleton] at haN
        have := hGN a haG
        omega
      · intro a ha hmem
        simp only [List.mem_cons, List.mem_singleton, List.not_mem_nil, or_false] at ha
        rcases List.mem_append.mp hmem with haG | haN
        · have h5 := hG5 a haG
          rcases ha with rfl | rfl | rfl
          · omega
          · omega
          · exact hRG a haG rfl
        · simp only [List.mem_singleton] at haN
          subst haN
          rcases ha with rfl | rfl | rfl
          · omega
          · omega
          · omega
    · intro a haE hmem
      rcases List.mem_append.mp hmem with h343 | hGN'
      · simp only [List.mem_cons, List.mem_singleton, List.not_mem_nil, or_false] at h343
        have h5 := hE5 a haE
        rcases h343 with rfl | rfl | rfl
        · omega
        · omega
        · exact hER haE
      · rcases List.mem_append.mp hGN' with haG | haN
        · exact hGE a haG haE
        · simp only [List.mem_singleton] at haN
          subst haN
          exact absurd (hEN a haE) (lt_irrefl _)
  · intro a ha hmem
    simp only [List.mem_cons, List.mem_singleton, List.not_mem_nil, or_false] at ha
    have ha2 : a ≤ 2 := by rcases ha with rfl | rfl; omega; omega
    rcases List.mem_append.mp hmem with haE | hrest
    · have := hE5 a haE
      omega
    · rcases List.mem_append.mp hrest with h343 | hGN'
      · simp only [List.mem_cons, List.mem_singleton, List.not_mem_nil, or_false] at h343
        rcases h343 with rfl | rfl | rfl
        · omega
        · omega
        · omega
      · rcases List.mem_append.mp hGN' with haG | haN
        · have := hG5 a haG
          omega
        · simp only [List.mem_singleton] at haN
          subst haN
          omega

/-- The validity of the empty initial core. -/
theorem core0_ok (n : ℕ) : CoreOk ⟨n, none, none⟩ := by
  unfold CoreOk
  refine ⟨?_, ?_, ?_⟩
  · intro r h
    cases h
  · intro r h
    cases h
  · intro a b ha hb
    cases ha

/-- No two objects of a `convert_tree` output share an identity. -/
theorem convertTreeOut_refs_nodup (t : Tree) (o : Options) (size : Size)
    (it : Transform) : (chunkRefs (convertTreeOut t o size it)).Nodup := by
  have hokF := coreRun_ok t.content ⟨5, none, none⟩ (core0_ok 5)
  have hbounds := emitted_ref_bounds t.content ⟨5, none, none⟩
  have hsorted := emitted_refs_sorted t.content ⟨5, none, none⟩
  have hE5 : ∀ e ∈ (emitted t.content ⟨5, none, none⟩).map Prod.fst, 5 ≤ e := by
    intro e he
    obtain ⟨p, hp, hfst⟩ := List.mem_map.mp he
    subst hfst
    exact (hbounds p hp).1
  have hEnF : ∀ e ∈ (emitted t.content ⟨5, none, none⟩).map Prod.fst,
      e < (coreRun t.content ⟨5, none, none⟩).next_ref := by
    intro e he
    obtain ⟨p, hp, hfst⟩ := List.mem_map.mp he
    subst hfst
    exact (hbounds p hp).2
  have hnF5 : 5 ≤ (coreRun t.content ⟨5, none, none⟩).next_ref :=
    coreRun_next_le t.content ⟨5, none, none⟩
  cases hsc : (coreRun t.content ⟨5, none, none⟩).srgbCached with
  | some r =>
    have hr5 : 5 ≤ r := by
      rcases coreRun_srgb_cases t.content ⟨5, none, none⟩ r hsc with h | h
      · simp at h
      · exact h
    have hrnF : r < (coreRun t.content ⟨5, none, none⟩).next_ref := hokF.1 r hsc
    have hrE := srgb_notin_emitted t.content ⟨5, none, none⟩ r (core0_ok 5) hsc
    cases husg : usesNode NodeUse.sgray t.content with
    | true =>
      have hgs : ((coreRun t.content ⟨5, none, none⟩).sgrayCached).isSome = true := by
        rw [coreRun_sgray_isSome]
        simp [husg]
      obtain ⟨g, hgc⟩ := Option.isSome_iff_exists.mp hgs
      have hout : chunkRefs (convertTreeOut t o size it)
          = [1, 2] ++ ((emitted t.content ⟨5, none, none⟩).map Prod.fst
            ++ ([4, 3, r] ++ ([g] ++ [(coreRun t.content ⟨5, none, none⟩).next_ref]))) := by
        simp [convertTreeOut, chunkRefs, hsc, husg, hgc]
      rw [hout]
      refine refs_nodup_aux _ _ _ _ hsorted hE5 hEnF hrE ?_ hr5 hrnF ?_ ?_ ?_ (by simp)
      · intro g' hg'
        simp only [List.mem_singleton] at hg'
        subst hg'
        exact sgray_notin_emitted t.content ⟨5, none, none⟩ g' (core0_ok 5) hgc
      · intro g' hg'
        simp only [List.mem_singleton] at hg'
        subst hg'
        rcases coreRun_sgray_cases t.content ⟨5, none, none⟩ g' hgc with h | h
        · simp at h
        · exact h
      · intro g' hg'
        simp only [List.mem_singleton] at hg'
        subst hg'
        exact hokF.2.1 g' hgc
      · intro g' hg'
        simp only [List.mem_singleton] at hg'
        subst hg'
        exact hokF.2.2 r g' hsc hgc
    | false =>
      have hout : chunkRefs (convertTreeOut t o size it)
          = [1, 2] ++ ((emitted t.content ⟨5, none, none⟩).map Prod.fst
            ++ ([4, 3, r] ++ ([] ++ [(coreRun t.content ⟨5, none, none⟩).next_ref]))) := by
        simp [convertTreeOut, chunkRefs, hsc, husg]
      rw [hout]
      exact refs_nodup_aux _ _ _ _ hsorted hE5 hEnF hrE (by simp) hr5 hrnF
        (by simp) (by simp) (by simp) (by simp)
  | none =>
    have hrE : (coreRun t.content ⟨5, none, none⟩).next_ref
        ∉ (emitted t.content ⟨5, none, none⟩).map Prod.fst := by
      intro hmem
      exact absurd (hEnF _ hmem) (lt_irrefl _)
    cases husg : usesNode NodeUse.sgray t.content with
    | true =>
      have hgs : ((coreRun t.content ⟨5, none, none⟩).sgrayCached).isSome = true := by
        rw [coreRun_sgray_isSome]
        simp [husg]
      obtain ⟨g, hgc⟩ := Option.isSome_iff_exists.mp hgs
      have hgnF : g < (coreRun t.content ⟨5, none, none⟩).next_ref := hokF.2.1 g hgc
      have hout : chunkRefs (convertTreeOut t o size it)
          = [1, 2] ++ ((emitted t.content ⟨5, none, none⟩).map Prod.fst
            ++ ([4, 3, (coreRun t.content ⟨5, none, none⟩).next_ref] ++ ([g]
            ++ [(coreRun t.content ⟨5, none, none⟩).next_ref + 1]))) := by
        simp [convertTreeOut, chunkRefs, hsc, husg, hgc]
      rw [hout]
      refine refs_nodup_aux _ _ _ _ hsorted hE5 ?_ hrE ?_ hnF5 (by omega) ?_ ?_ ?_ (by simp)
      · intro e he
        have := hEnF e he
        omega
      · intro g' hg'
        simp only [List.mem_singleton] at hg'
        subst hg'
        exact sgray_notin_emitted t.content ⟨5, none, none⟩ g' (core0_ok 5) hgc
      · intro g' hg'
        simp only [List.mem_singleton] at hg'
        subst hg'
        rcases coreRun_sgray_cases t.content ⟨5, none, none⟩ g' hgc with h | h
        · simp at h
        · exact h
      · intro g' hg'
        simp only [List.mem_singleton] at hg'
        subst hg'
        omega
      · intro g' hg'
        simp only [List.mem_singleton] at hg'
        subst hg'
        omega
    | false =>
      have hout : chunkRefs (convertTreeOut t o size it)
          = [1, 2] ++ ((emitted t.content ⟨5, none, none⟩).map Prod.fst
            ++ ([4, 3, (coreRun t.content ⟨5, none, none⟩).next_ref] ++ ([]
            ++ [(coreRun t.content ⟨5, none, none⟩).next_ref + 1]))) := by
        simp [convertTreeOut, chunkRefs, hsc, husg]
      rw [hout]
      refine refs_nodup_aux _ _ _ _ hsorted hE5 ?_ hrE (by simp) hnF5 (by omega)
        (by simp) (by simp) (by simp) (by simp)
      intro e he
      have := hEnF e he
      omega


/-! ### Claim theorems -/

/-- C9 counterexample: two configurations that agree on every option the
spec lists (viewport, dpi, compress, raster_scale) still convert the same
tree to different outputs, because the code additionally recognizes the
`aspect` option; so the recognized option set is not exactly the spec's
list. -/
theorem c9_counterexample :
    (Options.mk (some ⟨200, 100⟩) none 72 true 1).viewport
      = (Options.mk (some ⟨200, 100⟩) (some ⟨false, Align.xMidYMid, false⟩) 72 true 1).viewport ∧
    (Options.mk (some ⟨200, 100⟩) none 72 true 1).dpi
      = (Options.mk (some ⟨200, 100⟩) (some ⟨false, Align.xMidYMid, false⟩) 72 true 1).dpi ∧
    (Options.mk (some ⟨200, 100⟩) none 72 true 1).compress
      = (Options.mk (some ⟨200, 100⟩) (some ⟨false, Align.xMidYMid, false⟩) 72 true 1).compress ∧
    (Options.mk (some ⟨200, 100⟩) none 72 true 1).raster_scale
      = (Options.mk (some ⟨200, 100⟩) (some ⟨false, Align.xMidYMid, false⟩) 72 true 1).raster_scale ∧
    convert_tree ⟨100, 100, []⟩ (Options.mk (some ⟨200, 100⟩) none 72 true 1)
      ≠ convert_tree ⟨100, 100, []⟩
          (Options.mk (some ⟨200, 100⟩) (some ⟨false, Align.xMidYMid, false⟩) 72 true 1) := by
  refine ⟨rfl, rfl, rfl, rfl, ?_⟩
  have hs1 : pdf_size ⟨100, 100, []⟩ (Options.mk (some ⟨200, 100⟩) none 72 true 1)
      = some ⟨200, 100⟩ := by
    norm_num [pdf_size, Size.from_wh, dpi_ratio, Tree.size]
  have hs2 : pdf_size ⟨100, 100, []⟩
      (Options.mk (some ⟨200, 100⟩) (some ⟨false, Align.xMidYMid, false⟩) 72 true 1)
      = some ⟨200, 100⟩ := by
    norm_num [pdf_size, Size.from_wh, dpi_ratio, Tree.size]
  have hit1 : initial_transform none ⟨100, 100, []⟩ ⟨200, 100⟩
      = some ⟨2, 0, 0, -1, 0, 100⟩ := by
    norm_num [initial_transform, NonZeroRect.from_xywh, Tree.size, ViewBox.to_transform,
      aligned_pos, Transform.from_row, Transform.pre_concat, Option.getD]
  have hne : ¬ (Align.xMidYMid = Align.none_) := by decide
  have hit2 : initial_transform (some ⟨false, Align.xMidYMid, false⟩) ⟨100, 100, []⟩
      ⟨200, 100⟩ = some ⟨1, 0, 0, -1, 50, 100⟩ := by
    norm_num [initial_transform, NonZeroRect.from_xywh, Tree.size, ViewBox.to_transform,
      aligned_pos, Transform.from_row, Transform.pre_concat, Option.getD, hne]
  rw [convert_tree_eq _ _ _ _ hs1 hit1, convert_tree_eq _ _ _ _ hs2 hit2]
  intro heq
  norm_num [convertTreeOut, coreRun, coreUse, emitted, emittedStep, regs, regsStep,
    usesNode, Option.getD] at heq

/-- C9 (amended): the configuration recognizes exactly the options viewport
(default `None`), aspect (default `None`), dpi (default 72), compress
(default true) and raster_scale (default 1, inside the spec's 1.0–1.5
range); the five fields determine an `Options` value completely, and no
`embed_text` option exists in this variant (text is always outlined). -/
theorem c9_options_recognized :
    Options.default.viewport = none ∧
    Options.default.aspect = none ∧
    Options.default.dpi = 72 ∧
    Options.default.compress = true ∧
    Options.default.raster_scale = 1 ∧
    (1 : ℚ) ≤ Options.default.raster_scale ∧
    Options.default.raster_scale ≤ 3 / 2 ∧
    (∀ a b : Options, a.viewport = b.viewport → a.aspect = b.aspect → a.dpi = b.dpi →
      a.compress = b.compress → a.raster_scale = b.raster_scale → a = b) := by
  refine ⟨rfl, rfl, rfl, rfl, rfl, le_refl 1, by norm_num [Options.default], ?_⟩
  intro a b h1 h2 h3 h4 h5
  cases a
  cases b
  simp_all

/-- C9 witness: the field-determinacy clause applied at the default
configuration. -/
theorem c9_witness : Options.default = Options.default ∧ Options.default.dpi = 72 :=
  ⟨c9_options_recognized.2.2.2.2.2.2.2 Options.default Options.default rfl rfl rfl rfl rfl,
   c9_options_recognized.2.2.1⟩

/-- C2 counterexample: `convert_tree_into` with `start_ref = 6` writes its
only object — the root Form XObject — at identity 6 itself, which is not
strictly greater than the caller-supplied starting identity. -/
theorem c2_counterexample :
    convert_tree_into ⟨100, 100, []⟩ Options.default [] 6
      = some ([(6, PdfObject.form_xobject (Data.deflated ⟨⟨1, 0, 0, -1, 0, 100⟩, []⟩)
          ⟨0, 0, 100, 100⟩ ⟨1 / 100, 0, 0, 1 / 100, 0, 0⟩
          (some PdfFilter.flateDecode) [])], 7) ∧
    chunkRefs [(6, PdfObject.form_xobject (Data.deflated ⟨⟨1, 0, 0, -1, 0, 100⟩, []⟩)
          ⟨0, 0, 100, 100⟩ ⟨1 / 100, 0, 0, 1 / 100, 0, 0⟩
          (some PdfFilter.flateDecode) [])] = [6] ∧
    ¬ (6 > 6) := by
  refine ⟨?_, rfl, by omega⟩
  rw [convert_tree_into_eq ⟨100, 100, []⟩ Options.default [] 6 ⟨100, 100⟩
    ⟨1, 0, 0, -1, 0, 100⟩
    (pdf_size_default 100 100 [] (by norm_num) (by norm_num))
    (initial_transform_default 100 100 [] (by norm_num) (by norm_num))]
  simp [convertTreeIntoOut, coreRun, coreUse, emitted, emittedStep, regs, regsStep,
    usesNode, Context.finish_content, Transform.from_row, Options.default]

/-- C2 (amended): the allocator issues the consecutive identities starting
at (and including) the caller-supplied start: every issued identity is
previously unissued, strictly greater than all earlier ones, and at least
the start; in `convert_tree_into` the root Form XObject is written at the
caller-supplied `start_ref` itself. -/
theorem c2_allocator_consecutive :
    (∀ (t : Tree) (o : Options) (s k : ℕ),
      allocSeq (Context.new t o (some s)).deferrer k = List.range' s k) ∧
    (∀ (t : Tree) (o : Options) (s k : ℕ),
      (allocSeq (Context.new t o (some s)).deferrer k).Pairwise (· < ·)) ∧
    (∀ (t : Tree) (o : Options) (s k r : ℕ),
      r ∈ allocSeq (Context.new t o (some s)).deferrer k → s ≤ r) ∧
    (∀ (t : Tree) (o : Options) (c : Chunk) (s : ℕ) out next,
      convert_tree_into t o c s = some (out, next) →
      ∃ d b m f res, (s, PdfObject.form_xobject d b m f res) ∈ out) := by
  have h1 : ∀ (t : Tree) (o : Options) (s k : ℕ),
      allocSeq (Context.new t o (some s)).deferrer k = List.range' s k := by
    intro t o s k
    rw [allocSeq_eq]
    rfl
  refine ⟨h1, ?_, ?_, ?_⟩
  · intro t o s k
    rw [h1]
    exact List.pairwise_lt_range' s k 1
  · intro t o s k r hr
    rw [h1] at hr
    obtain ⟨i, hik, hi⟩ := List.mem_range'.mp hr
    omega
  · intro t o c s out next h
    cases hs : pdf_size t o with
    | none =>
      simp only [convert_tree_into, hs] at h
      exact Option.noConfusion h
    | some size =>
      cases hit : initial_transform o.aspect t size with
      | none =>
        simp only [convert_tree_into, hs, hit] at h
        exact Option.noConfusion h
      | some it =>
        rw [convert_tree_into_eq t o c s size it hs hit] at h
        injection h with h
        rw [Prod.ext_iff] at h
        obtain ⟨hout, hnext⟩ := h
        subst hout
        refine ⟨if o.compress then Data.deflated ⟨it, t.content⟩ else Data.raw ⟨it, t.content⟩,
          ⟨0, 0, size.width, size.height⟩,
          Transform.from_row (1 / size.width) 0 0 (1 / size.height) 0 0,
          if o.compress then some PdfFilter.flateDecode else none,
          regs t.content ⟨s + 1, none, none⟩, ?_⟩
        simp [convertTreeIntoOut, List.mem_append]

/-- C2 witness: three allocations from start 6 issue 6, 7, 8, and 6 itself
(an issued identity) is at least the start. -/
theorem c2_witness :
    allocSeq (Context.new ⟨100, 100, []⟩ Options.default (some 6)).deferrer 3
      = List.range' 6 3 ∧ (6 : ℕ) ≤ 6 :=
  ⟨c2_allocator_consecutive.1 ⟨100, 100, []⟩ Options.default 6 3,
   c2_allocator_consecutive.2.2.1 ⟨100, 100, []⟩ Options.default 6 3 6 (by decide)⟩

/-- C6 counterexample: with `dpi = 0` the conversion of a perfectly
well-formed tree panics (the `unwrap` in `pdf_size` fails), so
`convert_tree` is not total over all options. -/
theorem c6_counterexample :
    convert_tree ⟨100, 100, []⟩ (Options.mk none none 0 true 1) = none ∧
    (0 : ℚ) < 100 ∧ (0 : ℚ) < 100 := by
  refine ⟨?_, by norm_num, by norm_num⟩
  have hs : pdf_size ⟨100, 100, []⟩ (Options.mk none none 0 true 1) = none := by
    norm_num [pdf_size, Size.from_wh, dpi_ratio, Tree.size]
  rw [convert_tree, hs]

/-- C6 (amended): `convert_str` returns the parser's typed error exactly
when parsing fails and otherwise returns `convert_tree`'s output; and
`convert_tree` is total — it never panics and always produces a complete
document — for every well-formed tree (positive intrinsic size) whenever
the options carry a positive dpi (and a positive viewport when one is
supplied). -/
theorem c6_convert_str_errors (from_str : Option Size → String → Except UsvgError Tree)
    (src : String) (o : Options) :
    (∀ e, from_str o.viewport src = Except.error e →
      convert_str from_str src o = Except.error e) ∧
    (∀ t, from_str o.viewport src = Except.ok t →
      convert_str from_str src o = Except.ok (convert_tree t o)) ∧
    (∀ t : Tree, 0 < t.width → 0 < t.height → 0 < o.dpi →
      (∀ v, o.viewport = some v → 0 < v.width ∧ 0 < v.height) →
      (convert_tree t o).isSome) := by
  refine ⟨?_, ?_, ?_⟩
  · intro e he
    rw [convert_str, he]
  · intro t ht
    rw [convert_str, ht]
  · intro t hw hh hdpi hv
    obtain ⟨size, hs⟩ := pdf_size_isSome t o hw hh hdpi hv
    have hit := initial_transform_eq o.aspect t size hw hh
    rw [convert_tree_eq t o size _ hs hit]
    rfl

/-- C6 witness: a parse success converts, a parse failure propagates, and
the conversion of a concrete well-formed tree under default options is
defined. -/
theorem c6_witness :
    convert_str okParse sampleSrc Options.default
      = Except.ok (convert_tree (Tree.mk 100 100 []) Options.default) ∧
    convert_str errParse sampleSrc Options.default = Except.error UsvgError.parse ∧
    (convert_tree (Tree.mk 100 100 []) Options.default).isSome = true :=
  ⟨(c6_convert_str_errors okParse sampleSrc Options.default).2.1
      (Tree.mk 100 100 []) rfl,
   (c6_convert_str_errors errParse sampleSrc Options.default).1 UsvgError.parse rfl,
   (c6_convert_str_errors okParse sampleSrc Options.default).2.2
      (Tree.mk 100 100 []) (by norm_num) (by norm_num)
      (by norm_num [Options.default]) (by intro v hv; simp [Options.default] at hv)⟩

/-- C7 counterexample: with no viewport override and no aspect override but
`dpi = 144`, the initial transform maps the source point `(100, 0)` to
`(50, 50)`, not to `(x, page_height - y) = (100, 50)`: the claimed mapping
fails whenever the dpi ratio is not 1. -/
theorem c7_counterexample :
    pdf_size ⟨100, 100, []⟩ (Options.mk none none 144 true 1) = some ⟨50, 50⟩ ∧
    initial_transform none ⟨100, 100, []⟩ ⟨50, 50⟩
      = some ⟨1 / 2, 0, 0, -(1 / 2), 0, 50⟩ ∧
    (Transform.mk (1 / 2) 0 0 (-(1 / 2)) 0 50).apply (100, 0) = (50, 50) ∧
    ¬ ((50 : ℚ), (50 : ℚ)) = ((100 : ℚ), 50 - (0 : ℚ)) := by
  refine ⟨?_, ?_, ?_, ?_⟩
  · norm_num [pdf_size, Size.from_wh, dpi_ratio, Tree.size]
  · norm_num [initial_transform, NonZeroRect.from_xywh, Tree.size, ViewBox.to_transform,
      aligned_pos, Transform.from_row, Transform.pre_concat, Option.getD]
  · norm_num [Transform.apply]
  · norm_num [Prod.ext_iff]

/-- C7 (amended): the initial transform is the y-inverting device transform
composed after the view-box fit of the tree's intrinsic rectangle onto the
page size; and when no viewport override, no aspect override and the
default 72 dpi are given (so the dpi ratio is 1), it maps a source point
`(x, y)` to `(x, page_height - y)`. -/
theorem c7_initial_transform (t : Tree) (o : Options) (size : Size) (tr : Transform)
    (hw : 0 < t.width) (hh : 0 < t.height)
    (h : initial_transform o.aspect t size = some tr) :
    (∀ p : ℚ × ℚ, tr.apply p
      = (Transform.from_row 1 0 0 (-1) 0 size.height).apply
          (((ViewBox.mk ⟨0, 0, t.width, t.height⟩
              (o.aspect.getD ⟨false, Align.none_, false⟩)).to_transform size).apply p)) ∧
    (o.aspect = none → o.viewport = none → o.dpi = 72 → pdf_size t o = some size →
      ∀ x y : ℚ, tr.apply (x, y) = (x, size.height - y)) := by
  rw [initial_transform_eq o.aspect t size hw hh] at h
  injection h with h
  subst h
  constructor
  · intro p
    exact pre_concat_apply _ _ p
  · intro ha hv hdpi hs x y
    have hspec := pdf_size_spec t o size hs
    rw [hv] at hspec
    simp only [Option.getD, hdpi] at hspec
    have hr : dpi_ratio 72 = 1 := by norm_num [dpi_ratio]
    have hsw : size.width = t.width := by
      rw [hspec.1, hr]
      simp [Tree.size]
    have hsh : size.height = t.height := by
      rw [hspec.2.1, hr]
      simp [Tree.size]
    rw [pre_concat_apply]
    have hw0 : t.width ≠ 0 := ne_of_gt hw
    have hh0 : t.height ≠ 0 := ne_of_gt hh
    simp only [ViewBox.to_transform, aligned_pos, Transform.from_row, Transform.apply,
      ha, Option.getD, hsw, hsh]
    simp only [Prod.mk.injEq]
    constructor
    · field_simp
    · field_simp
      ring

/-- C7 witness: the amended mapping at the transform computed for a 100×50
tree under default options, evaluated at the point (3, 4). -/
theorem c7_witness :
    (Transform.mk 1 0 0 (-1) 0 50).apply (3, 4) = (3, (50 : ℚ) - 4) :=
  (c7_initial_transform ⟨100, 50, []⟩ Options.default ⟨100, 50⟩ ⟨1, 0, 0, -1, 0, 50⟩
      (by norm_num) (by norm_num)
      (by norm_num [initial_transform, NonZeroRect.from_xywh, Tree.size,
        ViewBox.to_transform, aligned_pos, Transform.from_row, Transform.pre_concat,
        Option.getD, Options.default])).2 rfl rfl rfl
    (by norm_num [pdf_size, Size.from_wh, dpi_ratio, Tree.size, Options.default]) 3 4


@[simp] theorem isIcc_catalog (k : IccKind) (p : ℕ) :
    (PdfObject.catalog p).isIcc k = false := rfl

@[simp] theorem isIcc_pages (k : IccKind) (n : ℕ) (kids : List ℕ) :
    (PdfObject.pages n kids).isIcc k = false := rfl

@[simp] theorem isIcc_page (k : IccKind) (mb : PRect) (pa : ℕ) (g : TransparencyGroup)
    (ct : ℕ) (res : List (ResKind × ℕ)) :
    (PdfObject.page mb pa g ct res).isIcc k = false := rfl

@[simp] theorem isIcc_stream (k : IccKind) (d : Data) (f : Option PdfFilter) :
    (PdfObject.stream d f).isIcc k = false := rfl

@[simp] theorem isIcc_form_xobject (k : IccKind) (d : Data) (b : PRect) (m : Transform)
    (f : Option PdfFilter) (res : List (ResKind × ℕ)) :
    (PdfObject.form_xobject d b m f res).isIcc k = false := rfl

@[simp] theorem isIcc_profile (k k' : IccKind) (n : ℕ) :
    (PdfObject.icc_profile k' n).isIcc k = (k' == k) := rfl

@[simp] theorem isIcc_info (k : IccKind) (p : Producer) :
    (PdfObject.document_info p).isIcc k = false := rfl

@[simp] theorem isIcc_walk (k : IccKind) : PdfObject.walk_object.isIcc k = false := rfl

@[simp] theorem isPage_catalog (p : ℕ) : (PdfObject.catalog p).isPage = false := rfl

@[simp] theorem isPage_pages (n : ℕ) (kids : List ℕ) :
    (PdfObject.pages n kids).isPage = false := rfl

@[simp] theorem isPage_page (mb : PRect) (pa : ℕ) (g : TransparencyGroup) (ct : ℕ)
    (res : List (ResKind × ℕ)) : (PdfObject.page mb pa g ct res).isPage = true := rfl

@[simp] theorem isPage_stream (d : Data) (f : Option PdfFilter) :
    (PdfObject.stream d f).isPage = false := rfl

@[simp] theorem isPage_form_xobject (d : Data) (b : PRect) (m : Transform)
    (f : Option PdfFilter) (res : List (ResKind × ℕ)) :
    (PdfObject.form_xobject d b m f res).isPage = false := rfl

@[simp] theorem isPage_profile (k : IccKind) (n : ℕ) :
    (PdfObject.icc_profile k n).isPage = false := rfl

@[simp] theorem isPage_info (p : Producer) :
    (PdfObject.document_info p).isPage = false := rfl

@[simp] theorem isPage_walk : PdfObject.walk_object.isPage = false := rfl

@[simp] theorem beq_icc_gray_srgb : (IccKind.gray == IccKind.srgb) = false := rfl

@[simp] theorem beq_icc_srgb_gray : (IccKind.srgb == IccKind.gray) = false := rfl

/-- C1 counterexample: converting a tree with no nodes at all — so no node
uses the sRGB profile — still emits one sRGB ICC profile object, because
the page transparency group written by `convert_tree` uses it; "a profile
never used (by a node) is never written" fails on `convert_tree`. -/
theorem c1_counterexample :
    usesNode NodeUse.srgb (Tree.mk 100 100 []).content = false ∧
    convert_tree ⟨100, 100, []⟩ Options.default
      = some [(1, PdfObject.catalog 2), (2, PdfObject.pages 1 [3]),
        (4, PdfObject.stream (Data.deflated ⟨⟨1, 0, 0, -1, 0, 100⟩, []⟩)
          (some PdfFilter.flateDecode)),
        (3, PdfObject.page ⟨0, 0, 100, 100⟩ 2 ⟨true, false, 5⟩ 4 []),
        (5, PdfObject.icc_profile IccKind.srgb 3),
        (6, PdfObject.document_info Producer.svg2pdf)] ∧
    iccCount [(1, PdfObject.catalog 2), (2, PdfObject.pages 1 [3]),
        (4, PdfObject.stream (Data.deflated ⟨⟨1, 0, 0, -1, 0, 100⟩, []⟩)
          (some PdfFilter.flateDecode)),
        (3, PdfObject.page ⟨0, 0, 100, 100⟩ 2 ⟨true, false, 5⟩ 4 []),
        (5, PdfObject.icc_profile IccKind.srgb 3),
        (6, PdfObject.document_info Producer.svg2pdf)] IccKind.srgb = 1 := by
  refine ⟨rfl, ?_, by simp [iccCount, List.countP_cons]⟩
  rw [convert_tree_eq ⟨100, 100, []⟩ Options.default ⟨100, 100⟩ ⟨1, 0, 0, -1, 0, 100⟩
    (pdf_size_default 100 100 [] (by norm_num) (by norm_num))
    (initial_transform_default 100 100 [] (by norm_num) (by norm_num))]
  simp [convertTreeOut, coreRun, coreUse, emitted, emittedStep, regs, regsStep,
    usesNode, Options.default]

/-- C1 (amended): each of the two global ICC profiles is written into the
output at most once — exactly when its used flag is set at the end of
conversion.  In `convert_tree_into` each flag is set iff some node used the
profile, so a profile never used yields no object; in `convert_tree` the
gray profile is likewise written iff some node used gray, but the sRGB flag
is additionally set by the page's transparency group, so exactly one sRGB
profile object is always present. -/
theorem c1_icc_profiles (t : Tree) (o : Options) (size : Size) (it : Transform)
    (hs : pdf_size t o = some size)
    (hit : initial_transform o.aspect t size = some it) :
    (∀ out, convert_tree t o = some out →
      iccCount out IccKind.srgb = 1 ∧
      iccCount out IccKind.gray = (if usesNode NodeUse.sgray t.content then 1 else 0)) ∧
    (∀ (s : ℕ) out next, convert_tree_into t o [] s = some (out, next) →
      iccCount out IccKind.srgb = (if usesNode NodeUse.srgb t.content then 1 else 0) ∧
      iccCount out IccKind.gray = (if usesNode NodeUse.sgray t.content then 1 else 0)) := by
  constructor
  · intro out h
    rw [convert_tree_eq t o size it hs hit] at h
    injection h with h
    subst h
    constructor
    · cases husg : usesNode NodeUse.sgray t.content <;>
        simp [convertTreeOut, iccCount, List.countP_append, List.countP_cons, husg,
          emitted_countP_icc]
    · cases husg : usesNode NodeUse.sgray t.content <;>
        simp [convertTreeOut, iccCount, List.countP_append, List.countP_cons, husg,
          emitted_countP_icc]
  · intro s out next h
    rw [convert_tree_into_eq t o [] s size it hs hit] at h
    injection h with h
    rw [Prod.ext_iff] at h
    obtain ⟨hout, hnext⟩ := h
    subst hout
    constructor
    · cases husr : usesNode NodeUse.srgb t.content <;>
        cases husg : usesNode NodeUse.sgray t.content <;>
        simp [convertTreeIntoOut, iccCount, List.countP_append, List.countP_cons,
          husr, husg, emitted_countP_icc]
    · cases husr : usesNode NodeUse.srgb t.content <;>
        cases husg : usesNode NodeUse.sgray t.content <;>
        simp [convertTreeIntoOut, iccCount, List.countP_append, List.countP_cons,
          husr, husg, emitted_countP_icc]

/-- C1 witness: a tree with one gray-using node yields exactly one sRGB and
one gray profile object. -/
theorem c1_witness :
    iccCount [(1, PdfObject.catalog 2), (2, PdfObject.pages 1 [3]),
      (4, PdfObject.stream (Data.deflated ⟨⟨1, 0, 0, -1, 0, 100⟩, [NodeUse.sgray]⟩)
        (some PdfFilter.flateDecode)),
      (3, PdfObject.page ⟨0, 0, 100, 100⟩ 2 ⟨true, false, 6⟩ 4 [(ResKind.colorSpace, 5)]),
      (6, PdfObject.icc_profile IccKind.srgb 3), (5, PdfObject.icc_profile IccKind.gray 1),
      (7, PdfObject.document_info Producer.svg2pdf)] IccKind.srgb = 1 ∧
    iccCount [(1, PdfObject.catalog 2), (2, PdfObject.pages 1 [3]),
      (4, PdfObject.stream (Data.deflated ⟨⟨1, 0, 0, -1, 0, 100⟩, [NodeUse.sgray]⟩)
        (some PdfFilter.flateDecode)),
      (3, PdfObject.page ⟨0, 0, 100, 100⟩ 2 ⟨true, false, 6⟩ 4 [(ResKind.colorSpace, 5)]),
      (6, PdfObject.icc_profile IccKind.srgb 3), (5, PdfObject.icc_profile IccKind.gray 1),
      (7, PdfObject.document_info Producer.svg2pdf)] IccKind.gray
      = (if usesNode NodeUse.sgray [NodeUse.sgray] then 1 else 0) :=
  (c1_icc_profiles ⟨100, 100, [NodeUse.sgray]⟩ Options.default ⟨100, 100⟩
      ⟨1, 0, 0, -1, 0, 100⟩
      (pdf_size_default 100 100 [NodeUse.sgray] (by norm_num) (by norm_num))
      (initial_transform_default 100 100 [NodeUse.sgray] (by norm_num) (by norm_num))).1
    _ (by
      rw [convert_tree_eq ⟨100, 100, [NodeUse.sgray]⟩ Options.default ⟨100, 100⟩
        ⟨1, 0, 0, -1, 0, 100⟩
        (pdf_size_default 100 100 [NodeUse.sgray] (by norm_num) (by norm_num))
        (initial_transform_default 100 100 [NodeUse.sgray] (by norm_num) (by norm_num))]
      simp [convertTreeOut, coreRun, coreUse, emitted, emittedStep, regs, regsStep,
        usesNode, Options.default])

/-- C10: `convert_tree` unconditionally writes the page's transparency
group as isolated (isolated true, knockout false) with an ICC-based sRGB
color-space reference, and the referenced sRGB profile object appears in
the output — whether or not any node of the tree uses color. -/
theorem c10_page_group (t : Tree) (o : Options) (size : Size) (it : Transform)
    (hs : pdf_size t o = some size)
    (hit : initial_transform o.aspect t size = some it) :
    ∀ out, convert_tree t o = some out →
      (3, PdfObject.page ⟨0, 0, size.width, size.height⟩ 2
          ⟨true, false, (coreRun t.content ⟨5, none, none⟩).srgbCached.getD
            (coreRun t.content ⟨5, none, none⟩).next_ref⟩ 4
          (regs t.content ⟨5, none, none⟩)) ∈ out ∧
      ((coreRun t.content ⟨5, none, none⟩).srgbCached.getD
          (coreRun t.content ⟨5, none, none⟩).next_ref,
        PdfObject.icc_profile IccKind.srgb 3) ∈ out := by
  intro out h
  rw [convert_tree_eq t o size it hs hit] at h
  injection h with h
  subst h
  constructor
  · simp [convertTreeOut, List.mem_append]
  · simp [convertTreeOut, List.mem_append]

/-- C10 witness: the empty tree still gets an isolated sRGB transparency
group and an sRGB profile object (here at identity 5). -/
theorem c10_witness :
    (3, PdfObject.page ⟨0, 0, 100, 100⟩ 2 ⟨true, false, 5⟩ 4 [])
      ∈ [(1, PdfObject.catalog 2), (2, PdfObject.pages 1 [3]),
        (4, PdfObject.stream (Data.deflated ⟨⟨1, 0, 0, -1, 0, 100⟩, []⟩)
          (some PdfFilter.flateDecode)),
        (3, PdfObject.page ⟨0, 0, 100, 100⟩ 2 ⟨true, false, 5⟩ 4 []),
        (5, PdfObject.icc_profile IccKind.srgb 3),
        (6, PdfObject.document_info Producer.svg2pdf)] ∧
    (5, PdfObject.icc_profile IccKind.srgb 3)
      ∈ [(1, PdfObject.catalog 2), (2, PdfObject.pages 1 [3]),
        (4, PdfObject.stream (Data.deflated ⟨⟨1, 0, 0, -1, 0, 100⟩, []⟩)
          (some PdfFilter.flateDecode)),
        (3, PdfObject.page ⟨0, 0, 100, 100⟩ 2 ⟨true, false, 5⟩ 4 []),
        (5, PdfObject.icc_profile IccKind.srgb 3),
        (6, PdfObject.document_info Producer.svg2pdf)] :=
  c10_page_group ⟨100, 100, []⟩ Options.default ⟨100, 100⟩ ⟨1, 0, 0, -1, 0, 100⟩
    (pdf_size_default 100 100 [] (by norm_num) (by norm_num))
    (initial_transform_default 100 100 [] (by norm_num) (by norm_num))
    _ (by
      rw [convert_tree_eq ⟨100, 100, []⟩ Options.default ⟨100, 100⟩ ⟨1, 0, 0, -1, 0, 100⟩
        (pdf_size_default 100 100 [] (by norm_num) (by norm_num))
        (initial_transform_default 100 100 [] (by norm_num) (by norm_num))]
      simp [convertTreeOut, coreRun, coreUse, emitted, emittedStep, regs, regsStep,
        usesNode, Options.default])

/-- C8: the emitted content stream — the page's content stream (identity 4)
in `convert_tree`, the root Form XObject stream (at `start_ref`) in
`convert_tree_into` — carries a FlateDecode filter iff `options.compress`
is set. -/
theorem c8_compress_filter (t : Tree) (o : Options) (size : Size) (it : Transform)
    (hs : pdf_size t o = some size)
    (hit : initial_transform o.aspect t size = some it) :
    (∀ out, convert_tree t o = some out →
      ((findObj out 4).bind streamFilter = some (some PdfFilter.flateDecode)
        ↔ o.compress = true)) ∧
    (∀ (s : ℕ) out next, convert_tree_into t o [] s = some (out, next) →
      ((findObj out s).bind streamFilter = some (some PdfFilter.flateDecode)
        ↔ o.compress = true)) := by
  constructor
  · intro out h
    rw [convert_tree_eq t o size it hs hit] at h
    injection h with h
    subst h
    have hE : (emitted t.content ⟨5, none, none⟩).find? (fun p => p.1 == 4) = none := by
      refine List.find?_eq_none.mpr ?_
      intro p hp
      have h5 : 5 ≤ p.1 := (emitted_ref_bounds t.content ⟨5, none, none⟩ p hp).1
      simp only [beq_iff_eq]
      omega
    cases hc : o.compress <;>
      cases husg : usesNode NodeUse.sgray t.content <;>
        simp [convertTreeOut, findObj, streamFilter, List.find?_append, hE, hc, husg]
  · intro s out next h
    rw [convert_tree_into_eq t o [] s size it hs hit] at h
    injection h with h
    rw [Prod.ext_iff] at h
    obtain ⟨hout, hnext⟩ := h
    subst hout
    have hE : (emitted t.content ⟨s + 1, none, none⟩).find? (fun p => p.1 == s) = none := by
      refine List.find?_eq_none.mpr ?_
      intro p hp
      have hsp : s + 1 ≤ p.1 := (emitted_ref_bounds t.content ⟨s + 1, none, none⟩ p hp).1
      simp only [beq_iff_eq]
      omega
    cases hc : o.compress <;>
      cases husr : usesNode NodeUse.srgb t.content <;>
        cases husg : usesNode NodeUse.sgray t.content <;>
          simp [convertTreeIntoOut, findObj, streamFilter, List.find?_append, hE, hc,
            husr, husg]

/-- C8 witness: under the default (compressing) options the page content
stream of a one-object tree carries the FlateDecode filter. -/
theorem c8_witness :
    (findObj [(1, PdfObject.catalog 2), (2, PdfObject.pages 1 [3]),
        (5, PdfObject.walk_object),
        (4, PdfObject.stream (Data.deflated ⟨⟨1, 0, 0, -1, 0, 100⟩, [NodeUse.object]⟩)
          (some PdfFilter.flateDecode)),
        (3, PdfObject.page ⟨0, 0, 100, 100⟩ 2 ⟨true, false, 6⟩ 4 [(ResKind.xObject, 5)]),
        (6, PdfObject.icc_profile IccKind.srgb 3),
        (7, PdfObject.document_info Producer.svg2pdf)] 4).bind streamFilter
      = some (some PdfFilter.flateDecode)
      ↔ Options.default.compress = true :=
  (c8_compress_filter ⟨100, 100, [NodeUse.object]⟩ Options.default ⟨100, 100⟩
      ⟨1, 0, 0, -1, 0, 100⟩
      (pdf_size_default 100 100 [NodeUse.object] (by norm_num) (by norm_num))
      (initial_transform_default 100 100 [NodeUse.object] (by norm_num) (by norm_num))).1
    _ (by
      rw [convert_tree_eq ⟨100, 100, [NodeUse.object]⟩ Options.default ⟨100, 100⟩
        ⟨1, 0, 0, -1, 0, 100⟩
        (pdf_size_default 100 100 [NodeUse.object] (by norm_num) (by norm_num))
        (initial_transform_default 100 100 [NodeUse.object] (by norm_num) (by norm_num))]
      simp [convertTreeOut, coreRun, coreUse, emitted, emittedStep, regs, regsStep,
        usesNode, Options.default])


/-- C4: for every tree and options with a defined page size, `convert_tree`
produces exactly one page; its media box is `[0, 0, w, h]` with `(w, h)`
the viewport (or, absent one, the tree's intrinsic size) divided by the dpi
ratio; the converted content is the stream at identity 4, which is that
page's content stream; and the page's resource dictionary holds exactly the
resources registered by the walk. -/
theorem c4_single_page (t : Tree) (o : Options) (size : Size)
    (hs : pdf_size t o = some size) (hw : 0 < t.width) (hh : 0 < t.height) :
    ∃ out, convert_tree t o = some out ∧
      pageCount out = 1 ∧
      (3, PdfObject.page ⟨0, 0, size.width, size.height⟩ 2
          ⟨true, false, (coreRun t.content ⟨5, none, none⟩).srgbCached.getD
            (coreRun t.content ⟨5, none, none⟩).next_ref⟩ 4
          (regs t.content ⟨5, none, none⟩)) ∈ out ∧
      (4, PdfObject.stream
          (if o.compress then Data.deflated ⟨(Transform.from_row 1 0 0 (-1) 0
              size.height).pre_concat ((ViewBox.mk ⟨0, 0, t.width, t.height⟩
              (o.aspect.getD ⟨false, Align.none_, false⟩)).to_transform size), t.content⟩
            else Data.raw ⟨(Transform.from_row 1 0 0 (-1) 0
              size.height).pre_concat ((ViewBox.mk ⟨0, 0, t.width, t.height⟩
              (o.aspect.getD ⟨false, Align.none_, false⟩)).to_transform size), t.content⟩)
          (if o.compress then some PdfFilter.flateDecode else none)) ∈ out ∧
      size.width = (o.viewport.getD t.size).width / dpi_ratio o.dpi ∧
      size.height = (o.viewport.getD t.size).height / dpi_ratio o.dpi := by
  have hit := initial_transform_eq o.aspect t size hw hh
  refine ⟨convertTreeOut t o size _, convert_tree_eq t o size _ hs hit, ?_, ?_, ?_,
    (pdf_size_spec t o size hs).1, (pdf_size_spec t o size hs).2.1⟩
  · cases husg : usesNode NodeUse.sgray t.content <;>
      simp [convertTreeOut, pageCount, List.countP_append, List.countP_cons, husg,
        emitted_countP_page]
  · simp [convertTreeOut, List.mem_append]
  · simp [convertTreeOut, Context.finish_content, List.mem_append]

/-- C4 witness: converting a 200×100 tree with default options yields one
page whose media box is `[0, 0, 200, 100]`. -/
theorem c4_witness :
    pageCount [(1, PdfObject.catalog 2), (2, PdfObject.pages 1 [3]),
      (4, PdfObject.stream (Data.deflated ⟨⟨1, 0, 0, -1, 0, 100⟩, []⟩)
        (some PdfFilter.flateDecode)),
      (3, PdfObject.page ⟨0, 0, 200, 100⟩ 2 ⟨true, false, 5⟩ 4 []),
      (5, PdfObject.icc_profile IccKind.srgb 3),
      (6, PdfObject.document_info Producer.svg2pdf)] = 1 := by
  obtain ⟨out, hout, hpc, hmem, hstream, hw', hh'⟩ :=
    c4_single_page ⟨200, 100, []⟩ Options.default ⟨200, 100⟩
      (pdf_size_default 200 100 [] (by norm_num) (by norm_num))
      (by norm_num) (by norm_num)
  have hlit : convert_tree ⟨200, 100, []⟩ Options.default
      = some [(1, PdfObject.catalog 2), (2, PdfObject.pages 1 [3]),
        (4, PdfObject.stream (Data.deflated ⟨⟨1, 0, 0, -1, 0, 100⟩, []⟩)
          (some PdfFilter.flateDecode)),
        (3, PdfObject.page ⟨0, 0, 200, 100⟩ 2 ⟨true, false, 5⟩ 4 []),
        (5, PdfObject.icc_profile IccKind.srgb 3),
        (6, PdfObject.document_info Producer.svg2pdf)] := by
    rw [convert_tree_eq ⟨200, 100, []⟩ Options.default ⟨200, 100⟩ ⟨1, 0, 0, -1, 0, 100⟩
      (pdf_size_default 200 100 [] (by norm_num) (by norm_num))
      (initial_transform_default 200 100 [] (by norm_num) (by norm_num))]
    simp [convertTreeOut, coreRun, coreUse, emitted, emittedStep, regs, regsStep,
      usesNode, Options.default]
  rw [hout] at hlit
  injection hlit with hlit
  rw [← hlit]
  exact hpc

/-- C5: `convert_tree_into` writes into the caller's chunk a root Form
XObject at the caller-supplied `start_ref`, with bounding box
`[0, 0, w, h]` for the computed page size and matrix
`[1/w, 0, 0, 1/h, 0, 0]`; that matrix maps the bounding box exactly onto
the unit square (its corners `(0,0)` and `(w,h)` go to `(0,0)` and
`(1,1)`). -/
theorem c5_form_xobject (t : Tree) (o : Options) (size : Size)
    (hs : pdf_size t o = some size) (hw : 0 < t.width) (hh : 0 < t.height)
    (chunk : Chunk) (s : ℕ) :
    ∃ out next, convert_tree_into t o chunk s = some (out, next) ∧
      (s, PdfObject.form_xobject
          (if o.compress then Data.deflated ⟨(Transform.from_row 1 0 0 (-1) 0
              size.height).pre_concat ((ViewBox.mk ⟨0, 0, t.width, t.height⟩
              (o.aspect.getD ⟨false, Align.none_, false⟩)).to_transform size), t.content⟩
            else Data.raw ⟨(Transform.from_row 1 0 0 (-1) 0
              size.height).pre_concat ((ViewBox.mk ⟨0, 0, t.width, t.height⟩
              (o.aspect.getD ⟨false, Align.none_, false⟩)).to_transform size), t.content⟩)
          ⟨0, 0, size.width, size.height⟩
          (Transform.from_row (1 / size.width) 0 0 (1 / size.height) 0 0)
          (if o.compress then some PdfFilter.flateDecode else none)
          (regs t.content ⟨s + 1, none, none⟩)) ∈ out ∧
      (Transform.from_row (1 / size.width) 0 0 (1 / size.height) 0 0).apply
          (size.width, size.height) = (1, 1) ∧
      (Transform.from_row (1 / size.width) 0 0 (1 / size.height) 0 0).apply (0, 0)
          = (0, 0) := by
  have hit := initial_transform_eq o.aspect t size hw hh
  obtain ⟨hsw, hsh, hpw, hph⟩ := pdf_size_spec t o size hs
  have hw0 : size.width ≠ 0 := ne_of_gt hpw
  have hh0 : size.height ≠ 0 := ne_of_gt hph
  refine ⟨_, _, convert_tree_into_eq t o chunk s size _ hs hit, ?_, ?_, ?_⟩
  · simp [convertTreeIntoOut, Context.finish_content, List.mem_append]
  · simp only [Transform.from_row, Transform.apply, Prod.mk.injEq]
    constructor
    · field_simp
    · field_simp
  · simp [Transform.from_row, Transform.apply]

/-- C5 witness: embedding a 200×100 tree at `start_ref = 9` writes the root
Form XObject at identity 9 with the unit-square matrix. -/
theorem c5_witness :
    (9, PdfObject.form_xobject
        (Data.deflated ⟨⟨1, 0, 0, -1, 0, 100⟩, []⟩) ⟨0, 0, 200, 100⟩
        (Transform.from_row (1 / 200) 0 0 (1 / 100) 0 0)
        (some PdfFilter.flateDecode) [])
      ∈ [(9, PdfObject.form_xobject
        (Data.deflated ⟨⟨1, 0, 0, -1, 0, 100⟩, []⟩) ⟨0, 0, 200, 100⟩
        (Transform.from_row (1 / 200) 0 0 (1 / 100) 0 0)
        (some PdfFilter.flateDecode) [])] ∧
    (Transform.from_row ((1 : ℚ) / 200) 0 0 ((1 : ℚ) / 100) 0 0).apply (200, 100)
      = (1, 1) := by
  obtain ⟨out, next, hout, hmem, hunit, hzero⟩ :=
    c5_form_xobject ⟨200, 100, []⟩ Options.default ⟨200, 100⟩
      (pdf_size_default 200 100 [] (by norm_num) (by norm_num))
      (by norm_num) (by norm_num) [] 9
  refine ⟨List.mem_singleton.mpr rfl, hunit⟩

/-- C3: conversion is deterministic — two runs of `convert_tree` on the
same tree and options produce identical object buffers (the model is a
function of the tree and options alone, each run constructing its own fresh
context) — and the object identities of any produced output are issued in
traversal order without collision (the identity list has no duplicates). -/
theorem c3_deterministic (t : Tree) (o : Options) :
    convert_tree t o = convert_tree t o ∧
    (∀ out, convert_tree t o = some out → (chunkRefs out).Nodup) := by
  refine ⟨rfl, ?_⟩
  intro out h
  cases hs : pdf_size t o with
  | none =>
    simp only [convert_tree, hs] at h
    exact Option.noConfusion h
  | some size =>
    cases hit : initial_transform o.aspect t size with
    | none =>
      simp only [convert_tree, hs, hit] at h
      exact Option.noConfusion h
    | some it =>
      rw [convert_tree_eq t o size it hs hit] at h
      injection h with h
      subst h
      exact convertTreeOut_refs_nodup t o size it

/-- C3 witness: the output of a concrete conversion has pairwise distinct
object identities. -/
theorem c3_witness :
    convert_tree ⟨100, 50, [NodeUse.srgb, NodeUse.object]⟩ Options.default
      = convert_tree ⟨100, 50, [NodeUse.srgb, NodeUse.object]⟩ Options.default ∧
    (chunkRefs [(1, PdfObject.catalog 2), (2, PdfObject.pages 1 [3]),
      (6, PdfObject.walk_object),
      (4, PdfObject.stream
        (Data.deflated ⟨⟨1, 0, 0, -1, 0, 50⟩, [NodeUse.srgb, NodeUse.object]⟩)
        (some PdfFilter.flateDecode)),
      (3, PdfObject.page ⟨0, 0, 100, 50⟩ 2 ⟨true, false, 5⟩ 4
        [(ResKind.colorSpace, 5), (ResKind.xObject, 6)]),
      (5, PdfObject.icc_profile IccKind.srgb 3),
      (7, PdfObject.document_info Producer.svg2pdf)]).Nodup :=
  ⟨(c3_deterministic ⟨100, 50, [NodeUse.srgb, NodeUse.object]⟩ Options.default).1,
   (c3_deterministic ⟨100, 50, [NodeUse.srgb, NodeUse.object]⟩ Options.default).2
    _ (by
      rw [convert_tree_eq ⟨100, 50, [NodeUse.srgb, NodeUse.object]⟩ Options.default
        ⟨100, 50⟩ ⟨1, 0, 0, -1, 0, 50⟩
        (pdf_size_default 100 50 [NodeUse.srgb, NodeUse.object] (by norm_num) (by norm_num))
        (initial_transform_default 100 50 [NodeUse.srgb, NodeUse.object]
          (by norm_num) (by norm_num))]
      simp [convertTreeOut, coreRun, coreUse, emitted, emittedStep, regs, regsStep,
        usesNode, Options.default])⟩


end Svg2Pdf
